import Mathlib

/-!
Verification development for the glean derivation engine (src/main.py).

The engine ingests an invoice table and a line-item table and emits glean
records through five detector pipelines (D1..D5) plus a driver that
concatenates their outputs.  This file gives a shallow embedding of those
pipelines over plain lists:

  * calendar dates are a structure of (year, month, day) integers with the
    calendar-date (lexicographic) order used by pandas timestamps;
  * pandas NaT (missing date) is Option.none;
  * real amounts are modelled as rationals;
  * the pandas groupby, merge, rolling, shift and value-counts operations
    are translated step by step, keeping the row orders the library
    produces (groupby sorts its keys; a column shift is global, not
    per group; unique() keeps first-occurrence order);
  * pd.date_range raising on NaT endpoints is modelled with Except.
-/

/-- Calendar date: year, month (1..12), day of month (1..monthLen). -/
structure Date where
  y : Int
  m : Int
  d : Int
deriving Repr, DecidableEq

/-- Gregorian leap-year predicate. -/
def isLeap (y : Int) : Bool :=
  (y % 4 == 0 && y % 100 != 0) || (y % 400 == 0)

/-- Number of days of the given month of the given year. -/
def monthLen (y m : Int) : Int :=
  if m = 2 then (if isLeap y then 29 else 28)
  else if m = 4 ∨ m = 6 ∨ m = 9 ∨ m = 11 then 30
  else 31

/-- A date is valid when its month and day are in calendar range. -/
def ValidDate (a : Date) : Prop :=
  1 ≤ a.m ∧ a.m ≤ 12 ∧ 1 ≤ a.d ∧ a.d ≤ monthLen a.y a.m

instance (a : Date) : Decidable (ValidDate a) :=
  inferInstanceAs (Decidable (_ ∧ _ ∧ _ ∧ _))

/-- Calendar-date order (the order pandas timestamps use), lexicographic
on (year, month, day). -/
def Date.le (a b : Date) : Prop :=
  a.y < b.y ∨ (a.y = b.y ∧ (a.m < b.m ∨ (a.m = b.m ∧ a.d ≤ b.d)))

/-- Strict calendar-date order. -/
def Date.lt (a b : Date) : Prop :=
  a.y < b.y ∨ (a.y = b.y ∧ (a.m < b.m ∨ (a.m = b.m ∧ a.d < b.d)))

instance : LE Date := ⟨Date.le⟩

instance : LT Date := ⟨Date.lt⟩

instance (a b : Date) : Decidable (a ≤ b) :=
  inferInstanceAs (Decidable (a.y < b.y ∨ (a.y = b.y ∧ (a.m < b.m ∨ (a.m = b.m ∧ a.d ≤ b.d)))))

instance (a b : Date) : Decidable (a < b) :=
  inferInstanceAs (Decidable (a.y < b.y ∨ (a.y = b.y ∧ (a.m < b.m ∨ (a.m = b.m ∧ a.d < b.d)))))

/-- Pointwise smaller of two dates. -/
def Date.min (a b : Date) : Date := if a ≤ b then a else b

/-- Pointwise larger of two dates. -/
def Date.max (a b : Date) : Date := if a ≤ b then b else a

/-- Truncation to the first day of the month (pandas x.replace(day=1)). -/
def monthStart (a : Date) : Date := ⟨a.y, a.m, 1⟩

/-- Adding one month, as pd.DateOffset(months=1) acts on day-1 dates. -/
def addMonth (a : Date) : Date :=
  if a.m = 12 then ⟨a.y + 1, 1, a.d⟩ else ⟨a.y, a.m + 1, a.d⟩

/-- Absolute month index; orders day-1 dates chronologically. -/
def monthIdx (a : Date) : Int := 12 * a.y + a.m

/-- Iterated addMonth. -/
def addMonthsD (a : Date) : Nat → Date
  | 0 => a
  | k + 1 => addMonth (addMonthsD a k)

/-- Quarter number 1..4 of a date (pandas Timestamp.quarter). -/
def quarterOf (a : Date) : Int := (a.m + 2).ediv 3

/-- Truncation to the first day of the quarter
(x.replace(day=1, month=quarter starting month)). -/
def quarterStart (a : Date) : Date := ⟨a.y, 3 * quarterOf a - 2, 1⟩

/-- Whether a date is the first day of a quarter. -/
def isQuarterStart (a : Date) : Bool :=
  decide (a.d = 1 ∧ (a.m = 1 ∨ a.m = 4 ∨ a.m = 7 ∨ a.m = 10))

/-- Days in proleptic-Gregorian years before year y (Python ordinal count). -/
def daysBeforeYear (y : Int) : Int :=
  365 * (y - 1) + (y - 1).ediv 4 - (y - 1).ediv 100 + (y - 1).ediv 400

/-- Cumulative days before month m of year y. -/
def daysBeforeMonth (y m : Int) : Int :=
  (if m ≤ 1 then 0
   else if m = 2 then 31
   else if m = 3 then 59
   else if m = 4 then 90
   else if m = 5 then 120
   else if m = 6 then 151
   else if m = 7 then 181
   else if m = 8 then 212
   else if m = 9 then 243
   else if m = 10 then 273
   else if m = 11 then 304
   else 334)
  + (if 2 < m ∧ isLeap y then 1 else 0)

/-- Proleptic-Gregorian ordinal of a date; differences of ordinals are the
day differences pandas computes on timestamps. -/
def toOrdinal (a : Date) : Int :=
  daysBeforeYear a.y + daysBeforeMonth a.y a.m + a.d

/-- The calendar day after a date. -/
def succDay (a : Date) : Date :=
  if a.d < monthLen a.y a.m then ⟨a.y, a.m, a.d + 1⟩ else addMonth ⟨a.y, a.m, 1⟩

/-- Fuel-driven generation of all days from s to e inclusive. -/
def dayRangeAux : Nat → Date → Date → List Date
  | 0, _, _ => []
  | fuel + 1, s, e => if s ≤ e then s :: dayRangeAux fuel (succDay s) e else []

/-- pd.date_range(s, e, freq=D): every calendar day in the closed
interval from s to e. -/
def dayRange (s e : Date) : List Date :=
  dayRangeAux ((toOrdinal e - toOrdinal s).toNat + 1) s e

/-- pd.date_range(s, e, freq=MS) for month-start endpoints: the month
starts s, s+1 month, ..., e. -/
def monthRange (s e : Date) : List Date :=
  if monthIdx s ≤ monthIdx e then
    (List.range ((monthIdx e - monthIdx s).toNat + 1)).map (addMonthsD s)
  else []

/-- pd.date_range(s, e, freq=QS) for month-start endpoints: the quarter
starts inside the closed interval from s to e. -/
def quarterRange (s e : Date) : List Date :=
  (monthRange s e).filter isQuarterStart

/-- Insertion of an element into a list, in front of the first entry that
the comparator accepts; building block of a stable sort. -/
def insertLe (le : α → α → Bool) (x : α) : List α → List α
  | [] => [x]
  | y :: ys => if le x y then x :: y :: ys else y :: insertLe le x ys

/-- Stable insertion sort: among entries the comparator ties, original
order is kept. -/
def isort (le : α → α → Bool) : List α → List α
  | [] => []
  | x :: xs => insertLe le x (isort le xs)

/-- First-occurrence deduplication, matching pandas Series.unique order. -/
def uniqueFirst [DecidableEq α] : List α → List α
  | [] => []
  | x :: xs => x :: (uniqueFirst xs).filter (fun z => z ≠ x)

/-- Value-with-count table in first-occurrence key order, as the hash
table behind Series.value_counts produces before sorting by count. -/
def valueCounts [DecidableEq α] (l : List α) : List (α × Nat) :=
  (uniqueFirst l).map (fun v => (v, l.count v))

/-- Comparator that sorts count pairs by descending count; ties keep
insertion order under the stable sort. -/
def countGe (p q : α × Nat) : Bool := decide (q.2 ≤ p.2)

/-- Series.value_counts().index[0] with 0 on empty input: the mode with
first-occurrence tie-break. -/
def modeVal (l : List Int) : Int :=
  match isort countGe (valueCounts l) with
  | [] => 0
  | p :: _ => p.1

/-- Trailing rolling mean of window w over a series, NaN (none) while
fewer than w observations exist (pandas Series.rolling(w).mean()). -/
def rollingMean (w : Nat) (xs : List Rat) : List (Option Rat) :=
  (List.range xs.length).map (fun i =>
    if w ≤ i + 1 then some (((xs.drop (i + 1 - w)).take w).sum / (w : Rat)) else none)

/-- Whole-column one-step shift (Series.shift(1)): the shift crosses
group boundaries because it is applied after the groupby result is
written back as a flat column. -/
def shift1 (l : List (Option Rat)) : List (Option Rat) := none :: l.dropLast

/-- The streak column of D4/D5: per-group rolling means of the 0/1
invoice indicator, concatenated in group order then shifted one row
globally. -/
def streakCol (w : Nat) (rows : List (List Rat)) : List (Option Rat) :=
  shift1 (rows.map (rollingMean w)).flatten

/-- Floor of a rational (its numerator divided by its denominator with
floor division). -/
def ratFloor (q : Rat) : Int := q.num / q.den

/-- Round to the nearest integer, ties to the even integer: the rounding
rule of numpy.round. -/
def roundHalfEven (q : Rat) : Int :=
  if q - ratFloor q < 1 / 2 then ratFloor q
  else if 1 / 2 < q - ratFloor q then ratFloor q + 1
  else if ratFloor q % 2 = 0 then ratFloor q else ratFloor q + 1

/-- np.round(q, 2): scale by 100, round half to even, scale back. -/
def npRound2 (q : Rat) : Rat := (roundHalfEven (q * 100) : Rat) / 100

/-- Modelled from the spec: rounding to 2 decimals with ties going away
from zero, the rule section 7 of the specification asserts for
user-visible months and percentages.  Present only for comparison with
npRound2, which is what the source uses. -/
def round2HalfAwaySpec (q : Rat) : Rat :=
  let s := q * 100
  let n := ratFloor s
  let r := s - n
  let z : Int := if r < 1 / 2 then n
    else if 1 / 2 < r then n + 1
    else if 0 ≤ s then n + 1 else n
  (z : Rat) / 100

/-- The MONTHS quantity of the D1 glean text: np.round(gap days / 30, 2). -/
def d1Months (gap : Int) : Rat := npRound2 ((gap : Rat) / 30)

/-- The PCT quantity of the D3 glean text: np.round(x / mu * 100, 2). -/
def d3Pct (x mu : Rat) : Rat := npRound2 (x / mu * 100)

/-- Two-digit zero-padded rendering of a month or day number. -/
def pad2 (n : Int) : String := if n < 10 then "0" ++ toString n else toString n

/-- ISO rendering of a date as in Python str(date). -/
def dateStr (a : Date) : String :=
  toString a.y ++ "-" ++ pad2 a.m ++ "-" ++ pad2 a.d

/-- Invoice record (columns the detectors consume). -/
structure Invoice where
  invoice_id : String
  canonical_vendor_id : String
  invoice_date : Option Date
  period_end_date : Option Date
  total_amount : Rat
deriving Repr, DecidableEq

/-- Line-item record (columns the detectors consume). -/
structure LineItem where
  invoice_id : String
  period_end_date : Option Date
deriving Repr, DecidableEq

/-- Output glean record; glean_id is attached by the driver. -/
structure Glean where
  glean_date : Date
  glean_text : String
  glean_type : Nat
  glean_location : Nat
  invoice_id : Option String
  canonical_vendor_id : String
deriving Repr, DecidableEq

/-- Condition lifted over an optional value; a NaN operand makes every
pandas comparison false, so none maps to False. -/
def optHolds (p : α → Prop) : Option α → Prop
  | some a => p a
  | none => False

instance (p : α → Prop) [DecidablePred p] : (o : Option α) → Decidable (optHolds p o)
  | some a => inferInstanceAs (Decidable (p a))
  | none => inferInstanceAs (Decidable False)

/-- Minimum and maximum of the non-null invoice dates, none when there is
no non-null date (Series.min and Series.max skip NaT). -/
def dateBounds (invoice : List Invoice) : Option (Date × Date) :=
  match invoice.filterMap (fun i => i.invoice_date) with
  | [] => none
  | d :: rest => some (rest.foldl (fun p x => (Date.min p.1 x, Date.max p.2 x)) (d, d))

/-- Vendor ids in first-occurrence order (Series.unique). -/
def uniqueVendors (invoice : List Invoice) : List String :=
  uniqueFirst (invoice.map (fun i => i.canonical_vendor_id))

/-- Lexicographic order on code points, the order Python string
comparison uses. -/
def charListLe : List Char → List Char → Bool
  | [], _ => true
  | _ :: _, [] => false
  | a :: as, b :: bs =>
    if a.val.toNat < b.val.toNat then true
    else if b.val.toNat < a.val.toNat then false
    else charListLe as bs

/-- String comparator for vendor ids. -/
def strLeB (a b : String) : Bool := charListLe a.data b.data

/-- Vendor ids in ascending order, the key order a groupby produces. -/
def sortedVendors (invoice : List Invoice) : List String :=
  isort strLeB (uniqueVendors invoice)

/-- Sort comparator by invoice date with NaT last, as
sort_values(by=invoice_date, na_position=last) orders rows. -/
def invLeByDate (a b : Invoice) : Bool :=
  match a.invoice_date, b.invoice_date with
  | some x, some y => decide (x ≤ y)
  | some _, none => true
  | none, some _ => false
  | none, none => true

/-- Rows of one vendor sorted ascending by invoice date. -/
def sortInvoicesByDate (l : List Invoice) : List Invoice := isort invLeByDate l

/-- Text of the D1 glean. -/
def d1_text (v : String) (gap : Int) : String :=
  "First new bill in " ++ toString (d1Months gap) ++ " months from vendor " ++ v

/-- The D1 glean built from the later invoice of a firing pair. -/
def mkD1Glean (inv : Invoice) (dte : Date) (gap : Int) : Glean :=
  { glean_date := dte, glean_text := d1_text inv.canonical_vendor_id gap,
    glean_type := 1, glean_location := 1,
    invoice_id := some inv.invoice_id, canonical_vendor_id := inv.canonical_vendor_id }

/-- Day difference of two consecutive rows; any NaT operand yields the
fillna sentinel -1. -/
def d1Pair (prev cur : Invoice) : Int :=
  match prev.invoice_date, cur.invoice_date with
  | some a, some b => toOrdinal b - toOrdinal a
  | _, _ => -1

/-- Emission for one row: a glean when its gap exceeds 90 days and its
invoice date is non-null (a null date always carries the sentinel -1 and
never emits). -/
def d1Emit (gap : Int) (cur : Invoice) : List Glean :=
  match cur.invoice_date with
  | some dte => if 90 < gap then [mkD1Glean cur dte gap] else []
  | none => []

/-- Walk of one vendor group in sorted order: the first row gets the
sentinel gap -1, later rows the day difference from the previous row;
rows whose gap exceeds 90 emit a glean. -/
def d1Scan : Option Invoice → List Invoice → List Glean
  | _, [] => []
  | prev, cur :: rest =>
    d1Emit (match prev with | none => -1 | some p => d1Pair p cur) cur
      ++ d1Scan (some cur) rest

/-- Detector D1, vendor_not_seen_in_a_while: rows sorted by
(vendor, invoice date), day differences taken inside each vendor group,
a glean per row with gap strictly over 90 days. -/
def vendor_not_seen_in_a_while (invoice : List Invoice) : List Glean :=
  (sortedVendors invoice).flatMap (fun v =>
    d1Scan none (sortInvoicesByDate
      (invoice.filter (fun i => decide (i.canonical_vendor_id = v)))))

/-- Row-wise maximum of two optional dates: NaT operands are skipped,
both NaT gives NaT (DataFrame.max(axis=1)). -/
def optMaxD : Option Date → Option Date → Option Date
  | none, b => b
  | some a, none => some a
  | some a, some b => some (Date.max a b)

/-- Rows of the left join of one invoice id with its line items, reduced
to the row-wise maximum of the two period_end_date columns; an id
without items keeps a single row with its own end date. -/
def mergedEndDates (invoice : List Invoice) (line_item : List LineItem) (iid : String) :
    List (Option Date) :=
  (invoice.filter (fun i => decide (i.invoice_id = iid))).flatMap (fun inv =>
    match line_item.filter (fun it => decide (it.invoice_id = iid)) with
    | [] => [optMaxD inv.period_end_date none]
    | its => its.map (fun it => optMaxD inv.period_end_date it.period_end_date))

/-- groupby(invoice_id).max over the merged rows: the latest period end
date known for an invoice id. -/
def latest_period_end_date (invoice : List Invoice) (line_item : List LineItem) (iid : String) :
    Option Date :=
  (mergedEndDates invoice line_item iid).foldl optMaxD none

/-- Text of the D2 glean. -/
def d2_text (v : String) (lpe : Date) : String :=
  "Line items from vendor " ++ v ++ " in this invoice cover future periods (through " ++
    dateStr lpe ++ ")"

/-- Detector D2, accrual_alert: fires for an invoice when its latest
period end date is more than 90 days after its invoice date. -/
def accrual_alert (invoice : List Invoice) (line_item : List LineItem) : List Glean :=
  invoice.filterMap (fun inv =>
    match latest_period_end_date invoice line_item inv.invoice_id, inv.invoice_date with
    | some lpe, some idt =>
      if 90 < toOrdinal lpe - toOrdinal idt then
        some { glean_date := idt, glean_text := d2_text inv.canonical_vendor_id lpe,
               glean_type := 2, glean_location := 1,
               invoice_id := some inv.invoice_id,
               canonical_vendor_id := inv.canonical_vendor_id }
      else none
    | _, _ => none)

/-- Message modelling the ValueError pd.date_range raises when its
endpoints are NaT (no non-null invoice date exists). -/
def dateRangeNaT : String := "date_range: start and end cannot be NaT"

/-- Monthly grid dates shared by D3 and D4: month starts from
month_start(min date) through month_start(max date) plus one month. -/
def grid_months (mn mx : Date) : List Date :=
  monthRange (monthStart mn) (addMonth (monthStart mx))

/-- Invoices of a vendor whose (non-null) invoice date falls in the
month starting at m. -/
def vendorMonthInvoices (invoice : List Invoice) (v : String) (m : Date) : List Invoice :=
  invoice.filter (fun i =>
    decide (i.canonical_vendor_id = v) && decide (i.invoice_date.map monthStart = some m))

/-- Monthly spend: groupby (vendor, month) sum of total_amount after the
left join onto the grid; a month with no invoices sums to 0. -/
def monthlyTotal (invoice : List Invoice) (v : String) (m : Date) : Rat :=
  ((vendorMonthInvoices invoice v m).map (fun i => i.total_amount)).sum

/-- The 0/1 indicator of the vendor having any invoice that month. -/
def invoiceBool (invoice : List Invoice) (v : String) (m : Date) : Rat :=
  if (vendorMonthInvoices invoice v m).isEmpty then 0 else 1

/-- Minimum of a list of dates, none when empty. -/
def minDateList : List Date → Option Date
  | [] => none
  | x :: xs => some (xs.foldl Date.min x)

/-- First (minimum) invoice date of a vendor inside one grid month. -/
def firstInvoiceDate (invoice : List Invoice) (v : String) (m : Date) : Option Date :=
  minDateList ((vendorMonthInvoices invoice v m).filterMap (fun i => i.invoice_date))

/-- Entry i of the rolling mean of window w (none beyond the series or
before w observations accumulate). -/
def rollAt (w : Nat) (xs : List Rat) (i : Nat) : Option Rat :=
  (rollingMean w xs).getD i none

/-- Band condition of D3 against the rolling average: false whenever the
average is NaN, as every comparison with NaN is. -/
def gtScaled (x c : Rat) (mu : Option Rat) : Prop :=
  optHolds (fun a => c * a < x) mu

instance (x c : Rat) (mu : Option Rat) : Decidable (gtScaled x c mu) :=
  inferInstanceAs (Decidable (optHolds _ mu))

/-- The three band conditions of lmi_mtd in source order: condition1 or
condition2 or condition3. -/
def lmi_bands (x : Rat) (mu : Option Rat) : Prop :=
  (10000 < x ∧ gtScaled x 0.5 mu) ∨
  (x < 10000 ∧ 1000 < x ∧ gtScaled x 2 mu) ∨
  (x < 1000 ∧ gtScaled x 5 mu)

instance (x : Rat) (mu : Option Rat) : Decidable (lmi_bands x mu) :=
  inferInstanceAs (Decidable (_ ∨ _ ∨ _))

/-- Row predicate and text of D3 (source function lmi_mtd): none when the
total is under 100 (condition4), the glean text when one of the three
spend bands fires, none otherwise. -/
def lmi_mtd (v : String) (x : Rat) (mu : Option Rat) : Option String :=
  if x < 100 then none
  else if lmi_bands x mu then
    some ("Monthly spend with " ++ v ++ " is $" ++ toString x ++ " (" ++
      toString (match mu with | some a => d3Pct x a | none => 0) ++ "%) higher than average.")
  else none

/-- Fallback date for list indexing that never escapes the pipelines. -/
def epochDate : Date := ⟨1970, 1, 1⟩

/-- One (vendor, month index) cell of D3: monthly total, trailing
12-month mean, band test, glean construction. -/
def lmi_row (invoice : List Invoice) (months : List Date) (v : String) (i : Nat) :
    Option Glean :=
  let totals := months.map (monthlyTotal invoice v)
  (lmi_mtd v (totals.getD i 0) (rollAt 12 totals i)).map (fun text =>
    { glean_date := months.getD i epochDate, glean_text := text,
      glean_type := 3, glean_location := 2,
      invoice_id := none, canonical_vendor_id := v })

/-- Detector D3, large_month_increase_mtd. -/
def large_month_increase_mtd (invoice : List Invoice) : Except String (List Glean) :=
  match dateBounds invoice with
  | none => Except.error dateRangeNaT
  | some (mn, mx) =>
    Except.ok ((sortedVendors invoice).flatMap (fun v =>
      (List.range (grid_months mn mx).length).filterMap
        (lmi_row invoice (grid_months mn mx) v)))

/-- Monthly grid of D4 as a function of the raw invoice table. -/
def d4_months (invoice : List Invoice) : List Date :=
  match dateBounds invoice with
  | none => []
  | some (mn, mx) => grid_months mn mx

/-- The consecutive_three_month column of D4: per-vendor (sorted vendor
order) rolling window-3 means of the monthly invoice indicator,
concatenated and then shifted one row globally. -/
def d4_streak_col (invoice : List Invoice) : List (Option Rat) :=
  streakCol 3 ((sortedVendors invoice).map (fun v =>
    (d4_months invoice).map (invoiceBool invoice v)))

/-- Key-based read of a grouped column laid out as sorted vendors times
grid periods. -/
def colLookup (keys1 : List String) (keys2 : List Date) (col : List (Option Rat))
    (v : String) (m : Date) : Option Rat :=
  match keys1.findIdx? (fun z => decide (z = v)), keys2.findIdx? (fun z => decide (z = m)) with
  | some j, some i => col.getD (j * keys2.length + i) none
  | _, _ => none

/-- Mode of the day-of-month of a vendor's invoices (0 when the vendor
has no dated invoices). -/
def most_frequent_day_month (invoice : List Invoice) (v : String) : Int :=
  modeVal ((invoice.filter (fun i => decide (i.canonical_vendor_id = v))).filterMap
    (fun i => i.invoice_date.map (fun dd => dd.d)))

/-- Text of the D4 glean. -/
def d4_text (v : String) (mfd : Int) (dd : Date) : String :=
  v ++ " generally charges between on " ++ toString mfd ++
    " day of each month invoices are sent. On " ++ dateStr dd ++
    ", an invoice from " ++ v ++ " has not been received"

/-- Row predicate of D4 (source function alarm_no_invoice_monthly); the
row is none when the daily date joined no grid row, making every
condition false. -/
def alarm_no_invoice_monthly (v : String) (row : Option (Rat × Option Rat × Option Date))
    (dd : Date) (mfd : Int) : Option Glean :=
  match row with
  | none => none
  | some (invoice_bool, consecutive_three_month, invoice_date) =>
    let condition1 := invoice_bool = 0
    let condition2 := consecutive_three_month = some 1
    let condition3 := mfd < dd.d
    let condition4 := invoice_bool = 1
    let condition5 := optHolds (fun t => t.m = dd.m ∧ t.y = dd.y) invoice_date
    let condition6 := optHolds (fun t => dd.d < t.d) invoice_date
    if (condition1 ∧ condition2 ∧ condition3) ∨
        (condition4 ∧ condition5 ∧ condition6 ∧ condition3 ∧ condition2) then
      some { glean_date := dd, glean_text := d4_text v mfd dd, glean_type := 4,
             glean_location := 2, invoice_id := none, canonical_vendor_id := v }
    else none

/-- Detector D4, no_invoice_received_monthly. -/
def no_invoice_received_monthly (invoice : List Invoice) : Except String (List Glean) :=
  match dateBounds invoice with
  | none => Except.error dateRangeNaT
  | some (mn, mx) =>
    let months := d4_months invoice
    let vs := sortedVendors invoice
    let col := d4_streak_col invoice
    let days := dayRange (monthStart mn) (addMonth (monthStart mx))
    Except.ok ((uniqueVendors invoice).flatMap (fun v =>
      days.filterMap (fun dd =>
        let m := monthStart dd
        let row := if months.contains m then
            some (invoiceBool invoice v m, colLookup vs months col v m,
              firstInvoiceDate invoice v m)
          else none
        alarm_no_invoice_monthly v row dd (most_frequent_day_month invoice v))))

/-- Invoices of a vendor whose (non-null) invoice date falls in the
quarter starting at q. -/
def vendorQuarterInvoices (invoice : List Invoice) (v : String) (q : Date) : List Invoice :=
  invoice.filter (fun i =>
    decide (i.canonical_vendor_id = v) && decide (i.invoice_date.map quarterStart = some q))

/-- The 0/1 indicator of the vendor having any invoice that quarter. -/
def invoiceBoolQ (invoice : List Invoice) (v : String) (q : Date) : Rat :=
  if (vendorQuarterInvoices invoice v q).isEmpty then 0 else 1

/-- First (minimum) invoice date of a vendor inside one grid quarter. -/
def firstInvoiceDateQ (invoice : List Invoice) (v : String) (q : Date) : Option Date :=
  minDateList ((vendorQuarterInvoices invoice v q).filterMap (fun i => i.invoice_date))

/-- One-based day offset inside the quarter of a date. -/
def dayOfQuarter (dd : Date) : Int := toOrdinal dd - toOrdinal (quarterStart dd) + 1

/-- Mode of the day-of-quarter of a vendor's invoices. -/
def most_frequent_day_quarter (invoice : List Invoice) (v : String) : Int :=
  modeVal ((invoice.filter (fun i => decide (i.canonical_vendor_id = v))).filterMap
    (fun i => i.invoice_date.map dayOfQuarter))

/-- Quarterly grid of D5 as a function of the raw invoice table. -/
def d5_quarters (invoice : List Invoice) : List Date :=
  match dateBounds invoice with
  | none => []
  | some (mn, mx) => quarterRange (monthStart mn) (addMonth (monthStart mx))

/-- The consecutive_two_quarter column of D5, built like the D4 column
with a window of 2 over the quarterly indicator. -/
def d5_streak_col (invoice : List Invoice) : List (Option Rat) :=
  streakCol 2 ((sortedVendors invoice).map (fun v =>
    (d5_quarters invoice).map (invoiceBoolQ invoice v)))

/-- Text of the D5 glean. -/
def d5_text (v : String) (mfd : Int) (dd : Date) : String :=
  v ++ " generally charges between on " ++ toString mfd ++
    " day of each quarter invoices are sent. On " ++ dateStr dd ++
    ", an invoice from " ++ v ++ " has not been received"

/-- Row predicate of D5 (source function alarm_no_invoice_quarterly). -/
def alarm_no_invoice_quarterly (v : String) (row : Option (Rat × Option Rat × Option Date))
    (dd : Date) (mfd : Int) : Option Glean :=
  match row with
  | none => none
  | some (invoice_bool, consecutive_two_quarter, invoice_date) =>
    let quarter_daily_day := dayOfQuarter dd
    let condition1 := invoice_bool = 0
    let condition2 := consecutive_two_quarter = some 1
    let condition3 := mfd < quarter_daily_day
    let condition4 := invoice_bool = 1
    let condition5 := optHolds (fun t => quarterOf t = quarterOf dd ∧ t.y = dd.y) invoice_date
    let condition6 := optHolds (fun t => quarter_daily_day < dayOfQuarter t) invoice_date
    if (condition1 ∧ condition2 ∧ condition3) ∨
        (condition4 ∧ condition5 ∧ condition6 ∧ condition3 ∧ condition2) then
      some { glean_date := dd, glean_text := d5_text v mfd dd, glean_type := 4,
             glean_location := 2, invoice_id := none, canonical_vendor_id := v }
    else none

/-- Detector D5, no_invoice_received_quaterly (source spelling kept). -/
def no_invoice_received_quaterly (invoice : List Invoice) : Except String (List Glean) :=
  match dateBounds invoice with
  | none => Except.error dateRangeNaT
  | some (mn, mx) =>
    let quarters := d5_quarters invoice
    let vs := sortedVendors invoice
    let col := d5_streak_col invoice
    let days := dayRange (monthStart mn) (addMonth (monthStart mx))
    Except.ok ((uniqueVendors invoice).flatMap (fun v =>
      days.filterMap (fun dd =>
        let q := quarterStart dd
        let row := if quarters.contains q then
            some (invoiceBoolQ invoice v q, colLookup vs quarters col v q,
              firstInvoiceDateQ invoice v q)
          else none
        alarm_no_invoice_quarterly v row dd (most_frequent_day_quarter invoice v))))

/-- Engine driver concat_gleans: run D1..D5 on the same inputs,
concatenate in that order, attach the zero-based row index as glean_id. -/
def concat_gleans (invoice : List Invoice) (line_item : List LineItem) :
    Except String (List (Nat × Glean)) := do
  let glean1 := vendor_not_seen_in_a_while invoice
  let glean2 := accrual_alert invoice line_item
  let glean3 ← large_month_increase_mtd invoice
  let glean4 ← no_invoice_received_monthly invoice
  let glean5 ← no_invoice_received_quaterly invoice
  return (glean1 ++ glean2 ++ glean3 ++ glean4 ++ glean5).enum

/-- Specification-side formula for D2: the maximum over the invoice's own
period_end_date and the period_end_date of every line item joined to it
by invoice_id.  Compared against latest_period_end_date, which follows
the merge and groupby of the source. -/
def latestSpecD2 (inv : Invoice) (line_item : List LineItem) : Option Date :=
  ((line_item.filter (fun it => decide (it.invoice_id = inv.invoice_id))).map
    (fun it => it.period_end_date)).foldl optMaxD inv.period_end_date

/-- Glean produced by a consecutive sorted pair of one vendor when the
day gap of the pair exceeds 90; used to state what D1 emits. -/
def d1PairGlean (p : Invoice × Invoice) : Option Glean :=
  match p.1.invoice_date, p.2.invoice_date with
  | some a, some b =>
    if 90 < toOrdinal b - toOrdinal a then
      some (mkD1Glean p.2 b (toOrdinal b - toOrdinal a))
    else none
  | _, _ => none

/-- Concrete one-invoice table used to instantiate engine-level theorems. -/
def exInvTiny : List Invoice := [⟨"I1", "V1", some ⟨2020, 1, 15⟩, none, 0⟩]

/-- Concrete two-invoice table with a 135-day gap (the D1 firing scenario
of the specification). -/
def exInvD1 : List Invoice :=
  [⟨"I1", "V1", some ⟨2020, 1, 1⟩, none, 100⟩,
   ⟨"I2", "V1", some ⟨2020, 5, 15⟩, none, 100⟩]

/-- One invoice whose own period end is 31 days out, with a line item
whose period end is 152 days out: D2 must fire off the line item. -/
def exInvC5 : List Invoice :=
  [⟨"I1", "V1", some ⟨2020, 1, 1⟩, some ⟨2020, 2, 1⟩, 100⟩]

def exLiC5 : List LineItem := [⟨"I1", some ⟨2020, 6, 1⟩⟩]

/-- An invoice table whose only row has a null invoice_date. -/
def exInvC10 : List Invoice := [⟨"I1", "V1", none, some ⟨2020, 2, 1⟩, 100⟩]

theorem Date.le_def (a b : Date) :
    a ≤ b ↔ (a.y < b.y ∨ (a.y = b.y ∧ (a.m < b.m ∨ (a.m = b.m ∧ a.d ≤ b.d)))) := Iff.rfl

theorem Date.lt_def (a b : Date) :
    a < b ↔ (a.y < b.y ∨ (a.y = b.y ∧ (a.m < b.m ∨ (a.m = b.m ∧ a.d < b.d)))) := Iff.rfl

theorem Date.le_refl (a : Date) : a ≤ a := by
  rw [Date.le_def]; omega

theorem Date.le_trans {a b c : Date} (h1 : a ≤ b) (h2 : b ≤ c) : a ≤ c := by
  rw [Date.le_def] at *; omega

theorem Date.le_total (a b : Date) : a ≤ b ∨ b ≤ a := by
  rw [Date.le_def, Date.le_def]; omega

theorem Date.le_antisymm {a b : Date} (h1 : a ≤ b) (h2 : b ≤ a) : a = b := by
  rw [Date.le_def] at *
  obtain ⟨ay, am, ad⟩ := a
  obtain ⟨by0, bm, bd⟩ := b
  simp only [Date.mk.injEq]
  simp only at h1 h2
  omega

theorem Date.le_of_lt {a b : Date} (h : a < b) : a ≤ b := by
  rw [Date.lt_def] at h; rw [Date.le_def]; omega

theorem Date.min_le_left (a b : Date) : Date.min a b ≤ a := by
  unfold Date.min; split
  · exact Date.le_refl a
  · rcases Date.le_total a b with h | h
    · exact absurd h (by assumption)
    · exact h

theorem Date.min_le_right (a b : Date) : Date.min a b ≤ b := by
  unfold Date.min; split
  · assumption
  · exact Date.le_refl b

theorem Date.le_max_left (a b : Date) : a ≤ Date.max a b := by
  unfold Date.max; split
  · assumption
  · exact Date.le_refl a

theorem Date.le_max_right (a b : Date) : b ≤ Date.max a b := by
  unfold Date.max; split
  · exact Date.le_refl b
  · rcases Date.le_total a b with h | h
    · exact absurd h (by assumption)
    · exact h

theorem monthStart_le_self {a : Date} (hd : 1 ≤ a.d) : monthStart a ≤ a := by
  rw [Date.le_def]; unfold monthStart; simp; omega

theorem lt_addMonth_monthStart (a : Date) : a < addMonth (monthStart a) := by
  rw [Date.lt_def]; unfold monthStart addMonth; split <;> simp_all <;> omega

theorem monthIdx_addMonth (a : Date) : monthIdx (addMonth a) = monthIdx a + 1 := by
  unfold monthIdx addMonth; split <;> simp_all <;> omega

theorem addMonth_d (a : Date) : (addMonth a).d = a.d := by
  unfold addMonth; split <;> simp

theorem addMonth_m_mem {a : Date} (h1 : 1 ≤ a.m) (h2 : a.m ≤ 12) :
    1 ≤ (addMonth a).m ∧ (addMonth a).m ≤ 12 := by
  unfold addMonth; split <;> simp <;> omega

theorem monthIdx_addMonthsD (a : Date) (k : Nat) :
    monthIdx (addMonthsD a k) = monthIdx a + k := by
  induction k with
  | zero => simp [addMonthsD]
  | succ n ih => rw [addMonthsD, monthIdx_addMonth, ih]; push_cast; ring

theorem addMonthsD_d (a : Date) (k : Nat) : (addMonthsD a k).d = a.d := by
  induction k with
  | zero => rfl
  | succ n ih => rw [addMonthsD, addMonth_d, ih]

theorem addMonthsD_m_mem {a : Date} (h1 : 1 ≤ a.m) (h2 : a.m ≤ 12) (k : Nat) :
    1 ≤ (addMonthsD a k).m ∧ (addMonthsD a k).m ≤ 12 := by
  induction k with
  | zero => exact ⟨h1, h2⟩
  | succ n ih => exact addMonth_m_mem ih.1 ih.2

theorem le_of_monthIdx_le {a b : Date} (ha1 : 1 ≤ a.m) (ha2 : a.m ≤ 12)
    (hb1 : 1 ≤ b.m) (hb2 : b.m ≤ 12) (hidx : monthIdx a ≤ monthIdx b)
    (hd : a.d ≤ b.d) : a ≤ b := by
  rw [Date.le_def]; unfold monthIdx at hidx; omega

theorem lt_of_monthIdx_lt {a b : Date} (ha1 : 1 ≤ a.m) (ha2 : a.m ≤ 12)
    (hb1 : 1 ≤ b.m) (hb2 : b.m ≤ 12) (hidx : monthIdx a < monthIdx b) : a < b := by
  rw [Date.lt_def]; unfold monthIdx at hidx; omega

theorem succDay_le (a : Date) : a ≤ succDay a := by
  unfold succDay addMonth
  split
  · rw [Date.le_def]; simp
  · split <;> (rw [Date.le_def]; simp <;> omega)

theorem mem_dayRangeAux {x s e : Date} {f : Nat} (h : x ∈ dayRangeAux f s e) :
    s ≤ x ∧ x ≤ e := by
  induction f generalizing s with
  | zero => simp [dayRangeAux] at h
  | succ n ih =>
    rw [dayRangeAux] at h
    split at h
    · rcases List.mem_cons.mp h with hx | hx
      · subst hx; exact ⟨Date.le_refl x, by assumption⟩
      · obtain ⟨h1, h2⟩ := ih hx
        exact ⟨Date.le_trans (succDay_le s) h1, h2⟩
    · simp at h

theorem mem_dayRange {x s e : Date} (h : x ∈ dayRange s e) : s ≤ x ∧ x ≤ e :=
  mem_dayRangeAux h

theorem mem_monthRange {x s e : Date} (hs1 : 1 ≤ s.m) (hs2 : s.m ≤ 12)
    (he1 : 1 ≤ e.m) (he2 : e.m ≤ 12) (hd : s.d = e.d)
    (h : x ∈ monthRange s e) : s ≤ x ∧ x ≤ e := by
  unfold monthRange at h
  split at h
  · next hle =>
    rcases List.mem_map.mp h with ⟨k, hk, rfl⟩
    rcases List.mem_range.mp hk with hk2
    have hm := addMonthsD_m_mem hs1 hs2 k
    have hdk := addMonthsD_d s k
    have hidx := monthIdx_addMonthsD s k
    constructor
    · exact le_of_monthIdx_le hs1 hs2 hm.1 hm.2 (by omega) (by omega)
    · refine le_of_monthIdx_le hm.1 hm.2 he1 he2 ?_ (by omega)
      have : (k : Int) ≤ monthIdx e - monthIdx s := by
        have := Int.toNat_of_nonneg (by omega : (0 : Int) ≤ monthIdx e - monthIdx s)
        omega
      omega
  · simp at h

theorem mem_quarterRange {x s e : Date} (hs1 : 1 ≤ s.m) (hs2 : s.m ≤ 12)
    (he1 : 1 ≤ e.m) (he2 : e.m ≤ 12) (hd : s.d = e.d)
    (h : x ∈ quarterRange s e) : s ≤ x ∧ x ≤ e :=
  mem_monthRange hs1 hs2 he1 he2 hd (List.mem_filter.mp h).1

theorem foldl_minmax_bounds (rest : List Date) (p : Date × Date) :
    (rest.foldl (fun p x => (Date.min p.1 x, Date.max p.2 x)) p).1 ≤ p.1 ∧
    p.2 ≤ (rest.foldl (fun p x => (Date.min p.1 x, Date.max p.2 x)) p).2 ∧
    ∀ x ∈ rest,
      (rest.foldl (fun p x => (Date.min p.1 x, Date.max p.2 x)) p).1 ≤ x ∧
      x ≤ (rest.foldl (fun p x => (Date.min p.1 x, Date.max p.2 x)) p).2 := by
  induction rest generalizing p with
  | nil => exact ⟨Date.le_refl _, Date.le_refl _, by simp⟩
  | cons a t ih =>
    simp only [List.foldl_cons]
    obtain ⟨h1, h2, h3⟩ := ih (Date.min p.1 a, Date.max p.2 a)
    refine ⟨Date.le_trans h1 (Date.min_le_left _ _),
            Date.le_trans (Date.le_max_left _ _) h2, ?_⟩
    intro x hx
    rcases List.mem_cons.mp hx with hxa | hxt
    · subst hxa
      exact ⟨Date.le_trans h1 (Date.min_le_right _ _),
             Date.le_trans (Date.le_max_right _ _) h2⟩
    · exact h3 x hxt

theorem dateBounds_bounds {invoice : List Invoice} {mn mx : Date}
    (hb : dateBounds invoice = some (mn, mx)) :
    ∀ dd ∈ invoice.filterMap (fun i => i.invoice_date), mn ≤ dd ∧ dd ≤ mx := by
  unfold dateBounds at hb
  split at hb
  · exact absurd hb (by simp)
  · next d rest heq =>
    rw [heq]
    obtain ⟨h1, h2, h3⟩ := foldl_minmax_bounds rest (d, d)
    have hfold := Option.some.inj hb
    have hm1 : (rest.foldl (fun p x => (Date.min p.1 x, Date.max p.2 x)) (d, d)).1 = mn := by
      rw [hfold]
    have hm2 : (rest.foldl (fun p x => (Date.min p.1 x, Date.max p.2 x)) (d, d)).2 = mx := by
      rw [hfold]
    intro dd hdd
    rcases List.mem_cons.mp hdd with hdd | hdd
    · subst hdd
      exact ⟨hm1 ▸ h1, hm2 ▸ h2⟩
    · have := h3 dd hdd
      exact ⟨hm1 ▸ this.1, hm2 ▸ this.2⟩

theorem dateBounds_none_iff (invoice : List Invoice) :
    dateBounds invoice = none ↔ invoice.filterMap (fun i => i.invoice_date) = [] := by
  unfold dateBounds
  split <;> simp_all

theorem foldl_minmax_mem (rest : List Date) (p : Date × Date) :
    ((rest.foldl (fun p x => (Date.min p.1 x, Date.max p.2 x)) p).1 = p.1 ∨
      (rest.foldl (fun p x => (Date.min p.1 x, Date.max p.2 x)) p).1 ∈ rest) ∧
    ((rest.foldl (fun p x => (Date.min p.1 x, Date.max p.2 x)) p).2 = p.2 ∨
      (rest.foldl (fun p x => (Date.min p.1 x, Date.max p.2 x)) p).2 ∈ rest) := by
  induction rest generalizing p with
  | nil => simp
  | cons a t ih =>
    simp only [List.foldl_cons]
    obtain ⟨ih1, ih2⟩ := ih (Date.min p.1 a, Date.max p.2 a)
    constructor
    · rcases ih1 with h | h
      · rw [h]
        unfold Date.min
        split
        · exact Or.inl rfl
        · exact Or.inr (List.mem_cons_self _ _)
      · exact Or.inr (List.mem_cons_of_mem _ h)
    · rcases ih2 with h | h
      · rw [h]
        unfold Date.max
        split
        · exact Or.inr (List.mem_cons_self _ _)
        · exact Or.inl rfl
      · exact Or.inr (List.mem_cons_of_mem _ h)

theorem dateBounds_mem {invoice : List Invoice} {mn mx : Date}
    (hb : dateBounds invoice = some (mn, mx)) :
    mn ∈ invoice.filterMap (fun i => i.invoice_date) ∧
      mx ∈ invoice.filterMap (fun i => i.invoice_date) := by
  unfold dateBounds at hb
  split at hb
  · exact absurd hb (by simp)
  · next d rest heq =>
    rw [heq]
    have hfold := Option.some.inj hb
    obtain ⟨h1, h2⟩ := foldl_minmax_mem rest (d, d)
    have hm1 : (rest.foldl (fun p x => (Date.min p.1 x, Date.max p.2 x)) (d, d)).1 = mn := by
      rw [hfold]
    have hm2 : (rest.foldl (fun p x => (Date.min p.1 x, Date.max p.2 x)) (d, d)).2 = mx := by
      rw [hfold]
    rw [hm1] at h1
    rw [hm2] at h2
    constructor
    · rcases h1 with h | h
      · exact h ▸ List.mem_cons_self _ _
      · exact List.mem_cons_of_mem _ h
    · rcases h2 with h | h
      · exact h ▸ List.mem_cons_self _ _
      · exact List.mem_cons_of_mem _ h

theorem insertLe_perm (le : α → α → Bool) (x : α) (l : List α) :
    List.Perm (insertLe le x l) (x :: l) := by
  induction l with
  | nil => exact List.Perm.refl _
  | cons y ys ih =>
    unfold insertLe
    split
    · exact List.Perm.refl _
    · exact (ih.cons y).trans (List.Perm.swap x y ys)

theorem isort_perm (le : α → α → Bool) (l : List α) : List.Perm (isort le l) l := by
  induction l with
  | nil => exact List.Perm.refl _
  | cons x xs ih =>
    unfold isort
    exact (insertLe_perm le x (isort le xs)).trans (ih.cons x)

theorem mem_isort {le : α → α → Bool} {l : List α} {a : α} :
    a ∈ isort le l ↔ a ∈ l :=
  (isort_perm le l).mem_iff

theorem mem_uniqueFirst [DecidableEq α] (l : List α) (a : α) :
    a ∈ uniqueFirst l ↔ a ∈ l := by
  induction l with
  | nil => simp [uniqueFirst]
  | cons x xs ih =>
    rw [uniqueFirst]
    simp only [List.mem_cons, List.mem_filter, decide_eq_true_eq]
    rw [ih]
    by_cases hax : a = x
    · simp [hax]
    · simp [hax]

theorem nodup_uniqueFirst [DecidableEq α] (l : List α) : (uniqueFirst l).Nodup := by
  induction l with
  | nil => simp [uniqueFirst]
  | cons x xs ih =>
    rw [uniqueFirst]
    refine List.nodup_cons.mpr ⟨?_, ih.filter _⟩
    intro hmem
    have := (List.mem_filter.mp hmem).2
    simp at this

theorem mem_sortedVendors {invoice : List Invoice} {v : String} :
    v ∈ sortedVendors invoice ↔ ∃ i ∈ invoice, i.canonical_vendor_id = v := by
  unfold sortedVendors uniqueVendors
  rw [mem_isort, mem_uniqueFirst, List.mem_map]

theorem nodup_sortedVendors (invoice : List Invoice) : (sortedVendors invoice).Nodup := by
  unfold sortedVendors
  exact (isort_perm _ _).nodup_iff.mpr (nodup_uniqueFirst _)

theorem mem_uniqueVendors {invoice : List Invoice} {v : String} :
    v ∈ uniqueVendors invoice ↔ ∃ i ∈ invoice, i.canonical_vendor_id = v := by
  unfold uniqueVendors
  rw [mem_uniqueFirst, List.mem_map]

theorem rollingMean_getElem? {w : Nat} {xs : List Rat} {i : Nat} (h : i < xs.length) :
    (rollingMean w xs)[i]? =
      some (if w ≤ i + 1 then some (((xs.drop (i + 1 - w)).take w).sum / (w : Rat))
            else none) := by
  unfold rollingMean
  rw [List.getElem?_map, List.getElem?_range h]
  rfl

theorem rollAt_eq {w : Nat} {xs : List Rat} {i : Nat} (h : i < xs.length) :
    rollAt w xs i =
      if w ≤ i + 1 then some (((xs.drop (i + 1 - w)).take w).sum / (w : Rat)) else none := by
  unfold rollAt
  rw [List.getD_eq_getElem?_getD, rollingMean_getElem? h]
  rfl

theorem bounds_month_facts {invoice : List Invoice} {mn mx : Date}
    (hb : dateBounds invoice = some (mn, mx))
    (hval : ∀ i ∈ invoice, ∀ dd ∈ i.invoice_date.toList, ValidDate dd) :
    (1 ≤ mn.m ∧ mn.m ≤ 12) ∧ (1 ≤ mx.m ∧ mx.m ≤ 12) ∧ mn ≤ mx ∧
      ValidDate mn ∧ ValidDate mx := by
  obtain ⟨hmem1, hmem2⟩ := dateBounds_mem hb
  rcases List.mem_filterMap.mp hmem1 with ⟨i1, hi1, hd1⟩
  rcases List.mem_filterMap.mp hmem2 with ⟨i2, hi2, hd2⟩
  have hv1 : ValidDate mn := hval i1 hi1 mn (by rw [hd1]; simp)
  have hv2 : ValidDate mx := hval i2 hi2 mx (by rw [hd2]; simp)
  have hle : mn ≤ mx := (dateBounds_bounds hb mn hmem1).2
  exact ⟨⟨hv1.1, hv1.2.1⟩, ⟨hv2.1, hv2.2.1⟩, hle, hv1, hv2⟩

theorem insertLe_pairwise {le : α → α → Bool}
    (htot : ∀ a b, le a b = true ∨ le b a = true)
    (htrans : ∀ a b c, le a b = true → le b c = true → le a c = true)
    {x : α} {l : List α} (hl : l.Pairwise (fun a b => le a b = true)) :
    (insertLe le x l).Pairwise (fun a b => le a b = true) := by
  induction l with
  | nil => simp [insertLe]
  | cons y ys ih =>
    rw [List.pairwise_cons] at hl
    unfold insertLe
    split
    · next hxy =>
      rw [List.pairwise_cons]
      refine ⟨?_, List.pairwise_cons.mpr hl⟩
      intro z hz
      rcases List.mem_cons.mp hz with rfl | hz
      · exact hxy
      · exact htrans x y z hxy (hl.1 z hz)
    · next hxy =>
      rw [List.pairwise_cons]
      refine ⟨?_, ih hl.2⟩
      intro z hz
      rcases (insertLe_perm le x ys).mem_iff.mp hz with hz2
      rcases List.mem_cons.mp hz2 with rfl | hz3
      · rcases htot y z with h | h
        · exact h
        · exact absurd h (by simpa using hxy)
      · exact hl.1 z hz3

theorem isort_pairwise {le : α → α → Bool}
    (htot : ∀ a b, le a b = true ∨ le b a = true)
    (htrans : ∀ a b c, le a b = true → le b c = true → le a c = true)
    (l : List α) : (isort le l).Pairwise (fun a b => le a b = true) := by
  induction l with
  | nil => simp [isort]
  | cons x xs ih => exact insertLe_pairwise htot htrans ih

theorem filter_insertLe_pos {le : α → α → Bool} {pr : α → Bool} {x : α}
    (hx : pr x = true) (hskip : ∀ y, le x y = false → pr y = false) :
    ∀ l : List α, (insertLe le x l).filter pr = x :: l.filter pr := by
  intro l
  induction l with
  | nil => simp [insertLe, hx]
  | cons y ys ih =>
    unfold insertLe
    split
    · rw [List.filter_cons_of_pos hx]
    · next hxy =>
      have hy : pr y = false := hskip y (by simpa using hxy)
      rw [List.filter_cons_of_neg (by simp [hy]), List.filter_cons_of_neg (by simp [hy]), ih]

theorem filter_insertLe_neg {le : α → α → Bool} {pr : α → Bool} {x : α}
    (hx : pr x = false) :
    ∀ l : List α, (insertLe le x l).filter pr = l.filter pr := by
  intro l
  induction l with
  | nil => simp [insertLe, hx]
  | cons y ys ih =>
    unfold insertLe
    split
    · rw [List.filter_cons_of_neg (by simp [hx])]
    · rw [List.filter_cons, List.filter_cons, ih]

theorem filter_isort {le : α → α → Bool} {pr : α → Bool}
    (hskip : ∀ x y, pr x = true → le x y = false → pr y = false) :
    ∀ l : List α, (isort le l).filter pr = l.filter pr := by
  intro l
  induction l with
  | nil => rfl
  | cons x xs ih =>
    unfold isort
    by_cases hx : pr x = true
    · rw [filter_insertLe_pos hx (fun y => hskip x y hx), ih, List.filter_cons_of_pos hx]
    · have hx2 : pr x = false := by
        cases hpr : pr x
        · rfl
        · exact absurd hpr hx
      rw [filter_insertLe_neg hx2, ih, List.filter_cons_of_neg (by simp [hx2])]

theorem uniqueFirst_pairwise_indexOf [DecidableEq α] (l : List α) :
    (uniqueFirst l).Pairwise (fun a b => l.indexOf a < l.indexOf b) := by
  induction l with
  | nil => simp [uniqueFirst]
  | cons x xs ih =>
    rw [uniqueFirst, List.pairwise_cons]
    constructor
    · intro b hb
      have hbne : b ≠ x := by
        have := (List.mem_filter.mp hb).2
        simpa using this
      rw [List.indexOf_cons_self]
      rw [List.indexOf_cons_ne _ (fun hcon => hbne hcon.symm)]
      omega
    · have hfil := (ih.filter (fun z => z ≠ x))
      refine hfil.imp_of_mem ?_
      intro a b ha hb hab
      have hane : a ≠ x := by simpa using (List.mem_filter.mp ha).2
      have hbne : b ≠ x := by simpa using (List.mem_filter.mp hb).2
      rw [List.indexOf_cons_ne _ (fun hcon => hane hcon.symm),
        List.indexOf_cons_ne _ (fun hcon => hbne hcon.symm)]
      omega

theorem mem_valueCounts [DecidableEq α] {l : List α} {p : α × Nat}
    (hp : p ∈ valueCounts l) : p.1 ∈ l ∧ p.2 = l.count p.1 := by
  unfold valueCounts at hp
  rcases List.mem_map.mp hp with ⟨v, hv, rfl⟩
  exact ⟨(mem_uniqueFirst l v).mp hv, rfl⟩

theorem countGe_total {α : Type} (a b : α × Nat) :
    countGe a b = true ∨ countGe b a = true := by
  unfold countGe
  rcases Nat.le_total a.2 b.2 with h | h
  · exact Or.inr (by simpa using h)
  · exact Or.inl (by simpa using h)

theorem countGe_trans {α : Type} (a b c : α × Nat)
    (h1 : countGe a b = true) (h2 : countGe b c = true) : countGe a c = true := by
  unfold countGe at *
  simp only [decide_eq_true_eq] at *
  omega

/-- C4: the mode aggregation used for the modal day (value counts in
first-occurrence key order, stably sorted by descending count, first
index taken; 0 on empty input) returns a most frequent value, and among
values tied for the highest count it returns the one whose first
occurrence in the input is earliest. -/
theorem c4_mode_tie_break (l : List Int) :
    (l = [] → modeVal l = 0) ∧
    (l ≠ [] →
      modeVal l ∈ l ∧
      (∀ v ∈ l, l.count v ≤ l.count (modeVal l)) ∧
      (∀ v ∈ l, l.count v = l.count (modeVal l) →
        l.indexOf (modeVal l) ≤ l.indexOf v)) := by
  constructor
  · rintro rfl
    rfl
  · intro hne
    obtain ⟨p, rest, hsorted⟩ : ∃ p rest, isort countGe (valueCounts l) = p :: rest := by
      cases hs : isort countGe (valueCounts l) with
      | nil =>
        exfalso
        have hperm := isort_perm countGe (valueCounts l)
        rw [hs] at hperm
        have hvc : valueCounts l = [] := hperm.symm.eq_nil
        unfold valueCounts at hvc
        rw [List.map_eq_nil_iff] at hvc
        cases hl : l with
        | nil => exact hne hl
        | cons a as =>
          rw [hl, uniqueFirst] at hvc
          exact absurd hvc (by simp)
      | cons p rest => exact ⟨p, rest, rfl⟩
    have hmode : modeVal l = p.1 := by
      unfold modeVal
      rw [hsorted]
    have hpmem : p ∈ valueCounts l :=
      (isort_perm countGe _).mem_iff.mp (hsorted ▸ List.mem_cons_self _ _)
    obtain ⟨hp1, hp2⟩ := mem_valueCounts hpmem
    have hcount : l.count (modeVal l) = p.2 := by
      rw [hmode, hp2]
    refine ⟨hmode ▸ hp1, ?_, ?_⟩
    · intro v hv
      have hvmem : (v, l.count v) ∈ valueCounts l :=
        List.mem_map.mpr ⟨v, (mem_uniqueFirst l v).mpr hv, rfl⟩
      have hsmem := (isort_perm countGe (valueCounts l)).mem_iff.mpr hvmem
      rw [hsorted] at hsmem
      have hpw := isort_pairwise countGe_total countGe_trans (valueCounts l)
      rw [hsorted, List.pairwise_cons] at hpw
      rcases List.mem_cons.mp hsmem with heq | hmem2
      · have : l.count v = p.2 := congrArg Prod.snd heq
        omega
      · have hge := hpw.1 _ hmem2
        unfold countGe at hge
        simp only [decide_eq_true_eq] at hge
        omega
    · intro v hv htie
      by_cases hveq : v = modeVal l
      · rw [hveq]
      · have hskip : ∀ x y : Int × Nat, (fun q : Int × Nat => decide (q.2 = p.2)) x = true →
            countGe x y = false → (fun q : Int × Nat => decide (q.2 = p.2)) y = false := by
          intro x y hx hxy
          unfold countGe at hxy
          simp only [decide_eq_true_eq] at hx
          simp only [decide_eq_false_iff_not] at hxy ⊢
          omega
        have hstab := filter_isort hskip (valueCounts l)
        rw [hsorted, List.filter_cons_of_pos (by simp)] at hstab
        unfold valueCounts at hstab
        rw [List.filter_map] at hstab
        cases hfil : ((uniqueFirst l).filter
            ((fun q : Int × Nat => decide (q.2 = p.2)) ∘ (fun v => (v, l.count v)))) with
        | nil =>
          rw [hfil] at hstab
          exact absurd hstab.symm (by simp)
        | cons u0 t =>
          rw [hfil] at hstab
          simp only [List.map_cons, List.cons.injEq] at hstab
          have hu0 : u0 = p.1 := (congrArg Prod.fst hstab.1).symm
          have hvin : v ∈ (uniqueFirst l).filter
              ((fun q : Int × Nat => decide (q.2 = p.2)) ∘ (fun v => (v, l.count v))) := by
            rw [List.mem_filter]
            refine ⟨(mem_uniqueFirst l v).mpr hv, ?_⟩
            simp only [Function.comp_apply, decide_eq_true_eq]
            omega
          rw [hfil, List.mem_cons] at hvin
          rcases hvin with hvin | hvin
          · exact absurd (hvin.trans (hu0.trans hmode.symm)) hveq
          · have hpw2 := (uniqueFirst_pairwise_indexOf l).filter
              ((fun q : Int × Nat => decide (q.2 = p.2)) ∘ (fun v => (v, l.count v)))
            rw [hfil, List.pairwise_cons] at hpw2
            have := hpw2.1 v hvin
            rw [hu0, ← hmode] at this
            omega

/-- Witness for the C4 theorem at the concrete tied input 5,7,7,5: both
values occur twice and the mode is 5, the value occurring first. -/
theorem c4_mode_tie_break_witness :
    ([5, 7, 7, 5] : List Int) ≠ [] ∧
    (modeVal [5, 7, 7, 5] ∈ ([5, 7, 7, 5] : List Int) ∧
      (∀ v ∈ ([5, 7, 7, 5] : List Int),
        ([5, 7, 7, 5] : List Int).count v ≤
          ([5, 7, 7, 5] : List Int).count (modeVal [5, 7, 7, 5])) ∧
      (∀ v ∈ ([5, 7, 7, 5] : List Int),
        ([5, 7, 7, 5] : List Int).count v =
            ([5, 7, 7, 5] : List Int).count (modeVal [5, 7, 7, 5]) →
          ([5, 7, 7, 5] : List Int).indexOf (modeVal [5, 7, 7, 5]) ≤
            ([5, 7, 7, 5] : List Int).indexOf v)) :=
  ⟨by decide, (c4_mode_tie_break [5, 7, 7, 5]).2 (by decide)⟩

theorem ratFloor_le (q : Rat) : (ratFloor q : Rat) ≤ q := by
  have hd : (0 : Int) < (q.den : Int) := by exact_mod_cast q.den_pos
  have hmod := Int.ediv_add_emod q.num (q.den : Int)
  have hnn := Int.emod_nonneg q.num (by omega : (q.den : Int) ≠ 0)
  have h1 : (q.den : Int) * ratFloor q ≤ q.num := by
    unfold ratFloor
    omega
  set k := ratFloor q with hk
  have hq : ((q.num : Rat)) / ((q.den : Rat)) = q := Rat.num_div_den q
  rw [← hq, le_div_iff (by exact_mod_cast hd)]
  calc (k : Rat) * (q.den : Rat) = (((q.den : Int) * k : Int) : Rat) := by
        push_cast
        ring
    _ ≤ ((q.num : Int) : Rat) := by exact_mod_cast h1

theorem lt_ratFloor_add_one (q : Rat) : q < (ratFloor q : Rat) + 1 := by
  have hd : (0 : Int) < (q.den : Int) := by exact_mod_cast q.den_pos
  have hmod := Int.ediv_add_emod q.num (q.den : Int)
  have hlt := Int.emod_lt_of_pos q.num hd
  have h1 : q.num < (q.den : Int) * (ratFloor q + 1) := by
    unfold ratFloor
    have hmul : (q.den : Int) * (q.num / (q.den : Int) + 1)
        = (q.den : Int) * (q.num / (q.den : Int)) + (q.den : Int) := by ring
    omega
  set k := ratFloor q with hk
  have hq : ((q.num : Rat)) / ((q.den : Rat)) = q := Rat.num_div_den q
  rw [← hq, div_lt_iff (by exact_mod_cast hd)]
  calc ((q.num : Int) : Rat) < (((q.den : Int) * (k + 1) : Int) : Rat) := by exact_mod_cast h1
    _ = ((k : Rat) + 1) * (q.den : Rat) := by push_cast; ring

/-- C6 (amended): the user-visible 2-decimal rounding of the source is
numpy round-half-to-even.  npRound2 q is n / 100 for an integer n with
100 q within a half of n, and a tie (distance exactly one half) resolves
to the even n - not away from zero. -/
theorem c6_npRound2_half_even (q : Rat) :
    ∃ n : Int, npRound2 q = (n : Rat) / 100 ∧
      |100 * q - (n : Rat)| ≤ 1 / 2 ∧
      (|100 * q - (n : Rat)| = 1 / 2 → Even n) := by
  unfold npRound2 roundHalfEven
  have hle := ratFloor_le (q * 100)
  have hlt := lt_ratFloor_add_one (q * 100)
  have hcomm : q * 100 = 100 * q := by ring
  split
  · next hr =>
    refine ⟨ratFloor (q * 100), rfl, ?_, ?_⟩
    · rw [abs_le]
      constructor <;> nlinarith [hle, hlt, hr]
    · intro htie
      exfalso
      rw [abs_eq (by norm_num)] at htie
      rcases htie with h | h <;> nlinarith [hle, hlt, hr]
  · next hr1 =>
    split
    · next hr2 =>
      refine ⟨ratFloor (q * 100) + 1, by push_cast; ring_nf, ?_, ?_⟩
      · rw [abs_le]
        push_cast
        constructor <;> nlinarith [hle, hlt, hr2]
      · intro htie
        exfalso
        rw [abs_eq (by norm_num)] at htie
        push_cast at htie
        rcases htie with h | h <;> nlinarith [hle, hlt, hr2]
    · next hr2 =>
      have hr3 : q * 100 - ratFloor (q * 100) = 1 / 2 := by
        push_cast at hr1 hr2 ⊢
        linarith [le_of_not_lt hr1, le_of_not_lt hr2]
      split
      · next heven =>
        refine ⟨ratFloor (q * 100), rfl, ?_, ?_⟩
        · rw [abs_le]
          constructor <;> nlinarith [hr3]
        · intro _
          exact Int.even_iff.mpr (by omega)
      · next hodd =>
        refine ⟨ratFloor (q * 100) + 1, by push_cast; ring_nf, ?_, ?_⟩
        · rw [abs_le]
          push_cast
          constructor <;> nlinarith [hr3]
        · intro _
          have : ratFloor (q * 100) % 2 = 1 := by omega
          exact Int.even_iff.mpr (by omega)

/-- C6 counterexample: for a monthly total of 4000.1 against a trailing
mean of 2000 (reachable with totals 19999.9 then ten zero months then
4000.1), the raw percentage is 200.005.  The source's np.round gives
200.00 (half to even), while the half-away-from-zero rounding the claim
asserts gives 200.01. -/
theorem c6_counterexample :
    d3Pct (40001 / 10) 2000 = 200 ∧
    round2HalfAwaySpec ((40001 / 10) / 2000 * 100) = 20001 / 100 ∧
    (200 : Rat) ≠ 20001 / 100 := by
  refine ⟨by with_unfolding_all rfl, by with_unfolding_all rfl, by norm_num⟩

theorem lmi_mtd_isSome_iff (v : String) (x : Rat) (mu : Option Rat) :
    (lmi_mtd v x mu).isSome ↔ (¬ x < 100 ∧ lmi_bands x mu) := by
  unfold lmi_mtd
  by_cases h4 : x < 100
  · rw [if_pos h4]
    simp [h4]
  · rw [if_neg h4]
    by_cases hc : lmi_bands x mu
    · rw [if_pos hc]
      simp [h4, hc]
    · rw [if_neg hc]
      simp [h4, hc]

/-- C2: D3 fires for a cell with monthly total x at month position i of a
vendor's grid exactly when x is at least 100, at least 11 prior months
exist (the trailing 12-month mean mu is defined), and one of the three
bands holds: x over 10000 with x over mu/2; x strictly between 1000 and
10000 with x over 2 mu; x under 1000 with x over 5 mu.  In particular
totals of exactly 1000 or 10000 never fire, totals under 100 never
fire, and the first 11 grid months of a vendor never fire. -/
theorem c2_d3_band_fires (v : String) (totals : List Rat) (i : Nat)
    (hi : i < totals.length) (x : Rat) (hx : x = totals.getD i 0) (mu : Rat)
    (hmu : mu = ((totals.drop (i - 11)).take 12).sum / 12) :
    ((lmi_mtd v x (rollAt 12 totals i)).isSome ↔
      (100 ≤ x ∧ 11 ≤ i ∧
        ((10000 < x ∧ 0.5 * mu < x) ∨ (1000 < x ∧ x < 10000 ∧ 2 * mu < x) ∨
          (x < 1000 ∧ 5 * mu < x)))) ∧
    (x = 1000 → lmi_mtd v x (rollAt 12 totals i) = none) ∧
    (x = 10000 → lmi_mtd v x (rollAt 12 totals i) = none) ∧
    (x < 100 → lmi_mtd v x (rollAt 12 totals i) = none) ∧
    (i < 11 → lmi_mtd v x (rollAt 12 totals i) = none) := by
  have hmain : (lmi_mtd v x (rollAt 12 totals i)).isSome ↔
      (100 ≤ x ∧ 11 ≤ i ∧
        ((10000 < x ∧ 0.5 * mu < x) ∨ (1000 < x ∧ x < 10000 ∧ 2 * mu < x) ∨
          (x < 1000 ∧ 5 * mu < x))) := by
    rw [lmi_mtd_isSome_iff]
    unfold lmi_bands
    by_cases h11 : 12 ≤ i + 1
    · have hroll : rollAt 12 totals i = some mu := by
        rw [rollAt_eq hi, if_pos h11, hmu]
        rw [show i + 1 - 12 = i - 11 from by omega]
        norm_num
      rw [hroll]
      simp only [gtScaled, optHolds, not_lt]
      have h11b : 11 ≤ i := by omega
      tauto
    · have hroll : rollAt 12 totals i = none := by
        rw [rollAt_eq hi, if_neg h11]
      rw [hroll]
      simp only [gtScaled, optHolds]
      have h11b : ¬ 11 ≤ i := by omega
      tauto
  refine ⟨hmain, ?_, ?_, ?_, ?_⟩
  · intro hx1000
    rw [← Option.not_isSome_iff_eq_none, hmain]
    rintro ⟨_, _, hb | hb | hb⟩ <;> rw [hx1000] at hb <;> [linarith [hb.1];
      linarith [hb.1]; linarith [hb.1]]
  · intro hx10000
    rw [← Option.not_isSome_iff_eq_none, hmain]
    rintro ⟨_, _, hb | hb | hb⟩
    · rw [hx10000] at hb
      linarith [hb.1]
    · rw [hx10000] at hb
      linarith [hb.2.1]
    · rw [hx10000] at hb
      linarith [hb.1]
  · intro hx100
    rw [← Option.not_isSome_iff_eq_none, hmain]
    rintro ⟨hcon, _, _⟩
    linarith
  · intro hi11
    rw [← Option.not_isSome_iff_eq_none, hmain]
    rintro ⟨_, hcon, _⟩
    omega

/-- Witness for the C2 theorem at the specification's spike scenario:
eleven months of 500 then 3000 at month index 12; the band test fires
through the middle band. -/
theorem c2_d3_band_fires_witness :
    (12 < ([500, 500, 500, 500, 500, 500, 500, 500, 500, 500, 500, 500, 3000] :
      List Rat).length) ∧
    ((3000 : Rat) =
      ([500, 500, 500, 500, 500, 500, 500, 500, 500, 500, 500, 500, 3000] :
        List Rat).getD 12 0) ∧
    ((2125 / 3 : Rat) =
      ((([500, 500, 500, 500, 500, 500, 500, 500, 500, 500, 500, 500, 3000] :
        List Rat).drop (12 - 11)).take 12).sum / 12) ∧
    (((lmi_mtd "V1" 3000 (rollAt 12
        [500, 500, 500, 500, 500, 500, 500, 500, 500, 500, 500, 500, 3000] 12)).isSome ↔
      (100 ≤ (3000 : Rat) ∧ 11 ≤ 12 ∧
        ((10000 < (3000 : Rat) ∧ 0.5 * (2125 / 3 : Rat) < 3000) ∨
          (1000 < (3000 : Rat) ∧ (3000 : Rat) < 10000 ∧ 2 * (2125 / 3 : Rat) < 3000) ∨
          ((3000 : Rat) < 1000 ∧ 5 * (2125 / 3 : Rat) < 3000)))) ∧
    ((3000 : Rat) = 1000 → lmi_mtd "V1" 3000 (rollAt 12
        [500, 500, 500, 500, 500, 500, 500, 500, 500, 500, 500, 500, 3000] 12) = none) ∧
    ((3000 : Rat) = 10000 → lmi_mtd "V1" 3000 (rollAt 12
        [500, 500, 500, 500, 500, 500, 500, 500, 500, 500, 500, 500, 3000] 12) = none) ∧
    ((3000 : Rat) < 100 → lmi_mtd "V1" 3000 (rollAt 12
        [500, 500, 500, 500, 500, 500, 500, 500, 500, 500, 500, 500, 3000] 12) = none) ∧
    (12 < 11 → lmi_mtd "V1" 3000 (rollAt 12
        [500, 500, 500, 500, 500, 500, 500, 500, 500, 500, 500, 500, 3000] 12) = none)) :=
  ⟨by decide, by with_unfolding_all rfl, by with_unfolding_all rfl,
    c2_d3_band_fires "V1"
      [500, 500, 500, 500, 500, 500, 500, 500, 500, 500, 500, 500, 3000] 12 (by decide)
      3000 (by with_unfolding_all rfl) (2125 / 3) (by with_unfolding_all rfl)⟩

theorem d1Emit_pair (prev cur : Invoice) :
    d1Emit (d1Pair prev cur) cur =
      (match d1PairGlean (prev, cur) with
        | some g => [g]
        | none => []) := by
  cases hpd : prev.invoice_date with
  | none =>
    cases hcd : cur.invoice_date with
    | none => simp [d1Emit, d1PairGlean, d1Pair, hpd, hcd]
    | some b =>
      simp only [d1Emit, d1PairGlean, d1Pair, hpd, hcd]
      norm_num
  | some a =>
    cases hcd : cur.invoice_date with
    | none => simp [d1Emit, d1PairGlean, d1Pair, hpd, hcd]
    | some b =>
      simp only [d1Emit, d1PairGlean, d1Pair, hpd, hcd]
      split
      · rfl
      · rfl

theorem d1Scan_some_eq (prev : Invoice) (rows : List Invoice) :
    d1Scan (some prev) rows = ((prev :: rows).zip rows).filterMap d1PairGlean := by
  induction rows generalizing prev with
  | nil => rfl
  | cons c rest ih =>
    rw [d1Scan, ih, List.zip_cons_cons, List.filterMap_cons, d1Emit_pair]
    cases d1PairGlean (prev, c) with
    | none => simp
    | some g => simp

theorem d1Scan_none_eq (rows : List Invoice) :
    d1Scan none rows = (rows.zip rows.tail).filterMap d1PairGlean := by
  cases rows with
  | nil => rfl
  | cons r rest =>
    have hstep : d1Scan none (r :: rest) = d1Emit (-1) r ++ d1Scan (some r) rest := rfl
    rw [hstep, d1Scan_some_eq]
    have hemit : d1Emit (-1) r = [] := by
      cases hcd : r.invoice_date with
      | none => simp [d1Emit, hcd]
      | some b =>
        simp only [d1Emit, hcd]
        norm_num
    rw [hemit, List.nil_append]
    rfl

theorem d1Emit_mem {g : Glean} {gap : Int} {cur : Invoice} (h : g ∈ d1Emit gap cur) :
    ∃ dte, cur.invoice_date = some dte ∧ g = mkD1Glean cur dte gap := by
  unfold d1Emit at h
  cases hcd : cur.invoice_date with
  | none => rw [hcd] at h; simp at h
  | some dte =>
    rw [hcd] at h
    have h2 : g ∈ (if 90 < gap then [mkD1Glean cur dte gap] else []) := h
    by_cases hgap : 90 < gap
    · rw [if_pos hgap] at h2
      exact ⟨dte, rfl, List.mem_singleton.mp h2⟩
    · rw [if_neg hgap] at h2
      simp at h2

theorem d1Scan_mem {g : Glean} :
    ∀ {prev : Option Invoice} {rows : List Invoice}, g ∈ d1Scan prev rows →
      ∃ inv ∈ rows, ∃ dte gap, inv.invoice_date = some dte ∧ g = mkD1Glean inv dte gap := by
  intro prev rows
  induction rows generalizing prev with
  | nil => intro h; simp [d1Scan] at h
  | cons c rest ih =>
    intro h
    cases prev with
    | none =>
      have hstep : d1Scan none (c :: rest) = d1Emit (-1) c ++ d1Scan (some c) rest := rfl
      rw [hstep, List.mem_append] at h
      rcases h with h | h
      · rcases d1Emit_mem h with ⟨dte, hdte, hg⟩
        exact ⟨c, List.mem_cons_self _ _, dte, _, hdte, hg⟩
      · rcases ih h with ⟨inv, hmem, dte, gap, hdte, hg⟩
        exact ⟨inv, List.mem_cons_of_mem _ hmem, dte, gap, hdte, hg⟩
    | some p =>
      have hstep : d1Scan (some p) (c :: rest)
          = d1Emit (d1Pair p c) c ++ d1Scan (some c) rest := rfl
      rw [hstep, List.mem_append] at h
      rcases h with h | h
      · rcases d1Emit_mem h with ⟨dte, hdte, hg⟩
        exact ⟨c, List.mem_cons_self _ _, dte, _, hdte, hg⟩
      · rcases ih h with ⟨inv, hmem, dte, gap, hdte, hg⟩
        exact ⟨inv, List.mem_cons_of_mem _ hmem, dte, gap, hdte, hg⟩

theorem filter_flatMap_single {vs : List String} (hnd : vs.Nodup) {f : String → List Glean}
    (hfield : ∀ v ∈ vs, ∀ g ∈ f v, g.canonical_vendor_id = v) (v : String) :
    ((vs.flatMap f).filter (fun g => decide (g.canonical_vendor_id = v))) =
      if v ∈ vs then f v else [] := by
  induction vs with
  | nil => simp
  | cons u us ih =>
    rw [List.flatMap_cons, List.filter_append]
    rw [List.nodup_cons] at hnd
    by_cases huv : u = v
    · subst huv
      have h1 : (f u).filter (fun g => decide (g.canonical_vendor_id = u)) = f u := by
        rw [List.filter_eq_self]
        intro g hg
        simp [hfield u (List.mem_cons_self _ _) g hg]
      have h2 : ((us.flatMap f).filter (fun g => decide (g.canonical_vendor_id = u))) = [] := by
        rw [ih hnd.2 (fun w hw g hg => hfield w (List.mem_cons_of_mem _ hw) g hg)]
        rw [if_neg hnd.1]
      rw [h1, h2, List.append_nil, if_pos (List.mem_cons_self _ _)]
    · have h1 : (f u).filter (fun g => decide (g.canonical_vendor_id = v)) = [] := by
        rw [List.filter_eq_nil_iff]
        intro g hg
        simp [hfield u (List.mem_cons_self _ _) g hg, huv]
      rw [h1, List.nil_append,
        ih hnd.2 (fun w hw g hg => hfield w (List.mem_cons_of_mem _ hw) g hg)]
      by_cases hv : v ∈ us
      · rw [if_pos hv, if_pos (List.mem_cons_of_mem _ hv)]
      · rw [if_neg hv, if_neg (by
          intro hcon
          rcases List.mem_cons.mp hcon with hcon | hcon
          · exact huv hcon.symm
          · exact hv hcon)]

theorem d1_pairs_length {rows : List Invoice}
    (hd : ∀ i ∈ rows, i.invoice_date.isSome) :
    ((rows.zip rows.tail).filterMap d1PairGlean).length =
      ((rows.filterMap (fun i => i.invoice_date)).zip
        (rows.filterMap (fun i => i.invoice_date)).tail).countP
        (fun p => decide (90 < toOrdinal p.2 - toOrdinal p.1)) := by
  induction rows with
  | nil => rfl
  | cons r1 tail ih =>
    cases tail with
    | nil =>
      rcases Option.isSome_iff_exists.mp (hd r1 (List.mem_cons_self _ _)) with ⟨dd1, hd1⟩
      simp [hd1]
    | cons r2 rest =>
      rcases Option.isSome_iff_exists.mp (hd r1 (List.mem_cons_self _ _)) with ⟨dd1, hd1⟩
      rcases Option.isSome_iff_exists.mp
        (hd r2 (List.mem_cons_of_mem _ (List.mem_cons_self _ _))) with ⟨dd2, hd2⟩
      have ihtail := ih (fun i hi => hd i (List.mem_cons_of_mem _ hi))
      simp only [List.tail_cons, List.zip_cons_cons, List.filterMap_cons, hd1, hd2,
        List.countP_cons] at ihtail ⊢
      have hpair : d1PairGlean (r1, r2) =
          (if 90 < toOrdinal dd2 - toOrdinal dd1
            then some (mkD1Glean r2 dd2 (toOrdinal dd2 - toOrdinal dd1)) else none) := by
        simp only [d1PairGlean, hd1, hd2]
      rw [hpair]
      by_cases hfire : 90 < toOrdinal dd2 - toOrdinal dd1
      · rw [if_pos hfire]
        simp only [List.length_cons, ihtail]
        simp [hfire]
      · rw [if_neg hfire]
        rw [ihtail]
        simp [hfire]

/-- C1: restricted to any vendor v, D1's output is exactly one glean per
consecutive pair of v's date-sorted invoices whose day gap exceeds 90,
built by d1PairGlean from the later invoice of the pair (so it carries
that invoice's date and id; the first invoice, carrying the sentinel
gap -1, never fires); consequently the number of D1 gleans of v equals
the number of consecutive gaps strictly over 90 days in v's sorted
dates. -/
theorem c1_vendor_not_seen (invoice : List Invoice) (v : String)
    (hd : ∀ i ∈ invoice, i.invoice_date.isSome) :
    ((vendor_not_seen_in_a_while invoice).filter
        (fun g => decide (g.canonical_vendor_id = v))) =
      ((sortInvoicesByDate (invoice.filter (fun i => decide (i.canonical_vendor_id = v)))).zip
          (sortInvoicesByDate
            (invoice.filter (fun i => decide (i.canonical_vendor_id = v)))).tail).filterMap
        d1PairGlean ∧
    ((vendor_not_seen_in_a_while invoice).filter
        (fun g => decide (g.canonical_vendor_id = v))).length =
      (((sortInvoicesByDate
            (invoice.filter (fun i => decide (i.canonical_vendor_id = v)))).filterMap
          (fun i => i.invoice_date)).zip
        ((sortInvoicesByDate
            (invoice.filter (fun i => decide (i.canonical_vendor_id = v)))).filterMap
          (fun i => i.invoice_date)).tail).countP
        (fun p => decide (90 < toOrdinal p.2 - toOrdinal p.1)) := by
  have hfield : ∀ w ∈ sortedVendors invoice,
      ∀ g ∈ d1Scan none (sortInvoicesByDate
        (invoice.filter (fun i => decide (i.canonical_vendor_id = w)))),
      g.canonical_vendor_id = w := by
    intro w hw g hg
    rcases d1Scan_mem hg with ⟨inv, hmem, dte, gap, hdte, rfl⟩
    have hmem2 := mem_isort.mp hmem
    have hvd := (List.mem_filter.mp hmem2).2
    rw [decide_eq_true_eq] at hvd
    exact hvd
  have hmain : (vendor_not_seen_in_a_while invoice).filter
      (fun g => decide (g.canonical_vendor_id = v)) =
      if v ∈ sortedVendors invoice then
        d1Scan none (sortInvoicesByDate
          (invoice.filter (fun i => decide (i.canonical_vendor_id = v))))
      else [] := by
    unfold vendor_not_seen_in_a_while
    exact filter_flatMap_single (nodup_sortedVendors invoice) hfield v
  have hpart1 : ((vendor_not_seen_in_a_while invoice).filter
      (fun g => decide (g.canonical_vendor_id = v))) =
      ((sortInvoicesByDate (invoice.filter (fun i => decide (i.canonical_vendor_id = v)))).zip
        (sortInvoicesByDate
          (invoice.filter (fun i => decide (i.canonical_vendor_id = v)))).tail).filterMap
        d1PairGlean := by
    by_cases hv : v ∈ sortedVendors invoice
    · rw [hmain, if_pos hv, d1Scan_none_eq]
    · rw [hmain, if_neg hv]
      have hemptyfil : invoice.filter (fun i => decide (i.canonical_vendor_id = v)) = [] := by
        rw [List.filter_eq_nil_iff]
        intro i hi hcon
        apply hv
        rw [mem_sortedVendors]
        exact ⟨i, hi, by simpa using hcon⟩
      rw [hemptyfil]
      rfl
  refine ⟨hpart1, ?_⟩
  rw [hpart1]
  apply d1_pairs_length
  intro i hi
  exact hd i (List.mem_of_mem_filter (mem_isort.mp hi))

/-- Witness for the C1 theorem at exInvD1 (two invoices of V1, 135 days
apart). -/
theorem c1_vendor_not_seen_witness :
    (∀ i ∈ exInvD1, i.invoice_date.isSome) ∧
    (((vendor_not_seen_in_a_while exInvD1).filter
        (fun g => decide (g.canonical_vendor_id = "V1"))) =
      ((sortInvoicesByDate
          (exInvD1.filter (fun i => decide (i.canonical_vendor_id = "V1")))).zip
          (sortInvoicesByDate
            (exInvD1.filter (fun i => decide (i.canonical_vendor_id = "V1")))).tail).filterMap
        d1PairGlean ∧
    ((vendor_not_seen_in_a_while exInvD1).filter
        (fun g => decide (g.canonical_vendor_id = "V1"))).length =
      (((sortInvoicesByDate
            (exInvD1.filter (fun i => decide (i.canonical_vendor_id = "V1")))).filterMap
          (fun i => i.invoice_date)).zip
        ((sortInvoicesByDate
            (exInvD1.filter (fun i => decide (i.canonical_vendor_id = "V1")))).filterMap
          (fun i => i.invoice_date)).tail).countP
        (fun p => decide (90 < toOrdinal p.2 - toOrdinal p.1))) :=
  ⟨by decide, c1_vendor_not_seen exInvD1 "V1" (by decide)⟩

theorem optMaxD_none_left (b : Option Date) : optMaxD none b = b := rfl

theorem optMaxD_none_right (a : Option Date) : optMaxD a none = a := by
  cases a <;> rfl

theorem dateMax_comm (a b : Date) : Date.max a b = Date.max b a := by
  unfold Date.max
  split <;> split
  · next h1 h2 => exact Date.le_antisymm h2 h1
  · rfl
  · rfl
  · next h1 h2 =>
    rcases Date.le_total a b with h | h
    · exact absurd h h1
    · exact absurd h h2

theorem dateMax_assoc (a b c : Date) :
    Date.max (Date.max a b) c = Date.max a (Date.max b c) := by
  obtain ⟨ay, am, ad⟩ := a
  obtain ⟨by0, bm, bd⟩ := b
  obtain ⟨cy, cm, cd⟩ := c
  unfold Date.max
  simp only [Date.le_def, Date.mk.injEq]
  split <;> split <;> (try split) <;> (try split) <;> (try split) <;>
    simp_all [Date.mk.injEq] <;> omega

theorem optMaxD_comm (a b : Option Date) : optMaxD a b = optMaxD b a := by
  cases a <;> cases b <;> simp [optMaxD, dateMax_comm]

theorem optMaxD_assoc (a b c : Option Date) :
    optMaxD (optMaxD a b) c = optMaxD a (optMaxD b c) := by
  cases a <;> cases b <;> cases c <;> simp [optMaxD, dateMax_assoc]

theorem dateMax_idem (a : Date) : Date.max a a = a := by
  unfold Date.max
  split <;> rfl

theorem optMaxD_absorb (a b : Option Date) : optMaxD (optMaxD a b) a = optMaxD a b := by
  rw [optMaxD_comm (optMaxD a b) a, ← optMaxD_assoc]
  cases a <;> simp [optMaxD, dateMax_idem]

theorem foldl_optMaxD_absorb (own : Option Date) (ped : LineItem → Option Date) :
    ∀ (l : List LineItem) (acc : Option Date), optMaxD acc own = acc →
      l.foldl (fun s it => optMaxD s (optMaxD own (ped it))) acc =
        l.foldl (fun s it => optMaxD s (ped it)) acc := by
  intro l
  induction l with
  | nil => intro acc hacc; rfl
  | cons it rest ih =>
    intro acc hacc
    simp only [List.foldl_cons]
    have hstep : optMaxD acc (optMaxD own (ped it)) = optMaxD acc (ped it) := by
      rw [← optMaxD_assoc, hacc]
    rw [hstep]
    apply ih
    rw [optMaxD_assoc, optMaxD_comm (ped it) own, ← optMaxD_assoc, hacc]

theorem filter_id_singleton {invoice : List Invoice}
    (hid : (invoice.map (fun i => i.invoice_id)).Nodup) {inv : Invoice}
    (hmem : inv ∈ invoice) :
    invoice.filter (fun i => decide (i.invoice_id = inv.invoice_id)) = [inv] := by
  induction invoice with
  | nil => simp at hmem
  | cons a rest ih =>
    rw [List.map_cons, List.nodup_cons] at hid
    rcases List.mem_cons.mp hmem with rfl | hmem2
    · rw [List.filter_cons_of_pos (by simp)]
      have hrest : rest.filter (fun i => decide (i.invoice_id = inv.invoice_id)) = [] := by
        rw [List.filter_eq_nil_iff]
        intro b hb hcon
        rw [decide_eq_true_eq] at hcon
        exact hid.1 (List.mem_map.mpr ⟨b, hb, hcon⟩)
      rw [hrest]
    · have hane : ¬ a.invoice_id = inv.invoice_id := by
        intro hcon
        apply hid.1
        rw [hcon]
        exact List.mem_map.mpr ⟨inv, hmem2, rfl⟩
      rw [List.filter_cons_of_neg (by simp [hane])]
      exact ih hid.2 hmem2

theorem latest_eq_spec {invoice : List Invoice} {line_item : List LineItem}
    (hid : (invoice.map (fun i => i.invoice_id)).Nodup) {inv : Invoice}
    (hmem : inv ∈ invoice) :
    latest_period_end_date invoice line_item inv.invoice_id = latestSpecD2 inv line_item := by
  unfold latest_period_end_date mergedEndDates latestSpecD2
  rw [filter_id_singleton hid hmem]
  cases hits : line_item.filter (fun it => decide (it.invoice_id = inv.invoice_id)) with
  | nil =>
    simp only [List.flatMap_cons, List.flatMap_nil, List.append_nil, List.map_nil,
      List.foldl_nil, List.foldl_cons]
    rw [optMaxD_none_left, optMaxD_none_right]
  | cons it rest =>
    simp only [List.flatMap_cons, List.flatMap_nil, List.append_nil, List.map_cons,
      List.foldl_cons]
    rw [optMaxD_none_left]
    have habs : optMaxD (optMaxD inv.period_end_date it.period_end_date)
        inv.period_end_date = optMaxD inv.period_end_date it.period_end_date :=
      optMaxD_absorb _ _
    rw [List.foldl_map, List.foldl_map]
    exact foldl_optMaxD_absorb inv.period_end_date
      (fun q => q.period_end_date) rest
      (optMaxD inv.period_end_date it.period_end_date) habs

/-- C5: with invoice_id a key of the invoice table, detector D2 emits a
glean for an invoice if and only if the maximum of the invoice's own
period_end_date and the period_end_dates of its joined line items exceeds
the invoice_date by strictly more than 90 days; an invoice with no line
items participates with its own period_end_date alone, and a firing glean
carries the invoice_date as glean_date and that invoice's invoice_id. -/
theorem c5_accrual_alert (invoice : List Invoice) (line_item : List LineItem)
    (hid : (invoice.map (fun i => i.invoice_id)).Nodup) :
    accrual_alert invoice line_item =
      invoice.filterMap (fun inv =>
        match latestSpecD2 inv line_item, inv.invoice_date with
        | some lpe, some idt =>
          if 90 < toOrdinal lpe - toOrdinal idt then
            some { glean_date := idt, glean_text := d2_text inv.canonical_vendor_id lpe,
                   glean_type := 2, glean_location := 1,
                   invoice_id := some inv.invoice_id,
                   canonical_vendor_id := inv.canonical_vendor_id }
          else none
        | _, _ => none) := by
  unfold accrual_alert
  apply List.filterMap_congr
  intro inv hmem
  rw [latest_eq_spec hid hmem]

/-- Witness for C5 at a concrete input: the single invoice fires off its
line item's later period end date. -/
theorem c5_accrual_alert_witness :
    (exInvC5.map (fun i => i.invoice_id)).Nodup ∧
      accrual_alert exInvC5 exLiC5 =
        exInvC5.filterMap (fun inv =>
          match latestSpecD2 inv exLiC5, inv.invoice_date with
          | some lpe, some idt =>
            if 90 < toOrdinal lpe - toOrdinal idt then
              some { glean_date := idt, glean_text := d2_text inv.canonical_vendor_id lpe,
                     glean_type := 2, glean_location := 1,
                     invoice_id := some inv.invoice_id,
                     canonical_vendor_id := inv.canonical_vendor_id }
            else none
          | _, _ => none) ∧
      (accrual_alert exInvC5 exLiC5).length = 1 :=
  ⟨by decide, c5_accrual_alert exInvC5 exLiC5 (by decide), by decide⟩

/-- C10: when every invoice_date in the invoice table is null (in
particular when the table is empty), the min/max of invoice_date is
undefined and the grid detectors D3, D4 and D5 all take the error branch
that models the pd.date_range ValueError, rather than returning an empty
glean table. -/
theorem c10_grid_requires_date (invoice : List Invoice)
    (h : ∀ i ∈ invoice, i.invoice_date = none) :
    large_month_increase_mtd invoice = Except.error dateRangeNaT ∧
    no_invoice_received_monthly invoice = Except.error dateRangeNaT ∧
    no_invoice_received_quaterly invoice = Except.error dateRangeNaT := by
  have hnone : dateBounds invoice = none := by
    rw [dateBounds_none_iff, List.filterMap_eq_nil_iff]
    exact h
  refine ⟨?_, ?_, ?_⟩ <;>
    simp [large_month_increase_mtd, no_invoice_received_monthly,
      no_invoice_received_quaterly, hnone]

/-- Witness for C10 at a table whose single row has a null date. -/
theorem c10_grid_requires_date_witness :
    (∀ i ∈ exInvC10, i.invoice_date = none) ∧
      (large_month_increase_mtd exInvC10 = Except.error dateRangeNaT ∧
       no_invoice_received_monthly exInvC10 = Except.error dateRangeNaT ∧
       no_invoice_received_quaterly exInvC10 = Except.error dateRangeNaT) :=
  ⟨by decide, c10_grid_requires_date exInvC10 (by decide)⟩

/-- C8: the driver runs D1..D5 on the same parsed inputs; whenever the
three grid detectors succeed, the output is the concatenation of the five
detector outputs in exactly that order with enum attaching the zero-based
row index, so the i-th output row carries glean_id = i, D1 rows precede
D2 rows, and so on through D5. -/
theorem c8_driver_order (invoice : List Invoice) (line_item : List LineItem)
    (g3 g4 g5 : List Glean)
    (h3 : large_month_increase_mtd invoice = Except.ok g3)
    (h4 : no_invoice_received_monthly invoice = Except.ok g4)
    (h5 : no_invoice_received_quaterly invoice = Except.ok g5) :
    ∃ out, concat_gleans invoice line_item = Except.ok out ∧
      out = (vendor_not_seen_in_a_while invoice ++ accrual_alert invoice line_item
              ++ g3 ++ g4 ++ g5).enum ∧
      ∀ i, (h : i < out.length) →
        (out.get ⟨i, h⟩).1 = i ∧
        (out.get ⟨i, h⟩).2 ∈ vendor_not_seen_in_a_while invoice ++
          accrual_alert invoice line_item ++ g3 ++ g4 ++ g5 := by
  refine ⟨_, ?_, rfl, ?_⟩
  · unfold concat_gleans
    rw [h3, h4, h5]
    rfl
  · intro i h
    have hlen : i < (vendor_not_seen_in_a_while invoice ++ accrual_alert invoice line_item
        ++ g3 ++ g4 ++ g5).length := by
      simpa [List.enum_length] using h
    constructor
    · simp [List.get_eq_getElem, List.getElem_enum]
    · simp only [List.get_eq_getElem, List.getElem_enum]
      exact List.getElem_mem hlen

set_option maxRecDepth 8000 in
/-- Witness for C8 at a concrete input where all three grid detectors
succeed (each with an empty glean list). -/
theorem c8_driver_order_witness :
    large_month_increase_mtd exInvTiny = Except.ok [] ∧
    no_invoice_received_monthly exInvTiny = Except.ok [] ∧
    no_invoice_received_quaterly exInvTiny = Except.ok [] ∧
    (∃ out, concat_gleans exInvTiny [] = Except.ok out ∧
      out = (vendor_not_seen_in_a_while exInvTiny ++ accrual_alert exInvTiny []
              ++ [] ++ [] ++ []).enum ∧
      ∀ i, (h : i < out.length) →
        (out.get ⟨i, h⟩).1 = i ∧
        (out.get ⟨i, h⟩).2 ∈ vendor_not_seen_in_a_while exInvTiny ++
          accrual_alert exInvTiny [] ++ [] ++ [] ++ []) :=
  ⟨by with_unfolding_all rfl, by with_unfolding_all rfl, by with_unfolding_all rfl,
   c8_driver_order exInvTiny [] [] [] [] (by with_unfolding_all rfl)
     (by with_unfolding_all rfl) (by with_unfolding_all rfl)⟩

theorem d1_fields {invoice : List Invoice} {g : Glean}
    (h : g ∈ vendor_not_seen_in_a_while invoice) :
    g.glean_location = 1 ∧ ∃ inv ∈ invoice, g.invoice_id = some inv.invoice_id := by
  unfold vendor_not_seen_in_a_while at h
  rw [List.mem_flatMap] at h
  obtain ⟨v, hv, hg⟩ := h
  obtain ⟨inv, hinv, dte, gap, hd, hgg⟩ := d1Scan_mem hg
  have hinv2 : inv ∈ invoice := by
    rw [sortInvoicesByDate, mem_isort] at hinv
    exact (List.mem_filter.mp hinv).1
  subst hgg
  exact ⟨rfl, inv, hinv2, rfl⟩

theorem d2_fields {invoice : List Invoice} {line_item : List LineItem} {g : Glean}
    (h : g ∈ accrual_alert invoice line_item) :
    g.glean_location = 1 ∧ ∃ inv ∈ invoice, g.invoice_id = some inv.invoice_id := by
  unfold accrual_alert at h
  rw [List.mem_filterMap] at h
  obtain ⟨inv, hinv, hf⟩ := h
  cases hl : latest_period_end_date invoice line_item inv.invoice_id with
  | none =>
    rw [hl] at hf
    cases inv.invoice_date <;> simp at hf
  | some lpe =>
    rw [hl] at hf
    cases hdte : inv.invoice_date with
    | none => rw [hdte] at hf; simp at hf
    | some idt =>
      rw [hdte] at hf
      have hf2 : (if 90 < toOrdinal lpe - toOrdinal idt then
          some { glean_date := idt, glean_text := d2_text inv.canonical_vendor_id lpe,
                 glean_type := 2, glean_location := 1,
                 invoice_id := some inv.invoice_id,
                 canonical_vendor_id := inv.canonical_vendor_id : Glean }
          else none) = some g := hf
      by_cases hc : 90 < toOrdinal lpe - toOrdinal idt
      · rw [if_pos hc] at hf2
        injection hf2 with hf3
        subst hf3
        exact ⟨rfl, inv, hinv, rfl⟩
      · rw [if_neg hc] at hf2
        simp at hf2

theorem d3_fields {invoice : List Invoice} {gl : List Glean} {g : Glean}
    (h3 : large_month_increase_mtd invoice = Except.ok gl) (hg : g ∈ gl) :
    g.glean_location = 2 ∧ g.invoice_id = none := by
  unfold large_month_increase_mtd at h3
  cases hdb : dateBounds invoice with
  | none => rw [hdb] at h3; simp at h3
  | some p =>
    obtain ⟨mn, mx⟩ := p
    rw [hdb] at h3
    injection h3 with h3
    subst h3
    rw [List.mem_flatMap] at hg
    obtain ⟨v, hv, hg⟩ := hg
    rw [List.mem_filterMap] at hg
    obtain ⟨i, hi, hrow⟩ := hg
    simp only [lmi_row] at hrow
    rw [Option.map_eq_some'] at hrow
    obtain ⟨t, ht, rfl⟩ := hrow
    exact ⟨rfl, rfl⟩

theorem alarm_monthly_fields {v : String} {row : Option (Rat × Option Rat × Option Date)}
    {dd : Date} {mfd : Int} {g : Glean}
    (h : alarm_no_invoice_monthly v row dd mfd = some g) :
    g.glean_location = 2 ∧ g.invoice_id = none ∧ g.glean_date = dd := by
  unfold alarm_no_invoice_monthly at h
  cases row with
  | none => simp at h
  | some r =>
    obtain ⟨ib, c3m, idate⟩ := r
    simp only at h
    split at h
    · injection h with h2
      subst h2
      exact ⟨rfl, rfl, rfl⟩
    · simp at h

theorem alarm_quarterly_fields {v : String} {row : Option (Rat × Option Rat × Option Date)}
    {dd : Date} {mfd : Int} {g : Glean}
    (h : alarm_no_invoice_quarterly v row dd mfd = some g) :
    g.glean_location = 2 ∧ g.invoice_id = none ∧ g.glean_date = dd := by
  unfold alarm_no_invoice_quarterly at h
  cases row with
  | none => simp at h
  | some r =>
    obtain ⟨ib, c2q, idate⟩ := r
    simp only at h
    split at h
    · injection h with h2
      subst h2
      exact ⟨rfl, rfl, rfl⟩
    · simp at h

theorem d4_fields {invoice : List Invoice} {gl : List Glean} {g : Glean}
    (h4 : no_invoice_received_monthly invoice = Except.ok gl) (hg : g ∈ gl) :
    g.glean_location = 2 ∧ g.invoice_id = none := by
  unfold no_invoice_received_monthly at h4
  cases hdb : dateBounds invoice with
  | none => rw [hdb] at h4; simp at h4
  | some p =>
    obtain ⟨mn, mx⟩ := p
    rw [hdb] at h4
    injection h4 with h4
    subst h4
    rw [List.mem_flatMap] at hg
    obtain ⟨v, hv, hg⟩ := hg
    rw [List.mem_filterMap] at hg
    obtain ⟨dd, hdd, halarm⟩ := hg
    exact ⟨(alarm_monthly_fields halarm).1, (alarm_monthly_fields halarm).2.1⟩

theorem d5_fields {invoice : List Invoice} {gl : List Glean} {g : Glean}
    (h5 : no_invoice_received_quaterly invoice = Except.ok gl) (hg : g ∈ gl) :
    g.glean_location = 2 ∧ g.invoice_id = none := by
  unfold no_invoice_received_quaterly at h5
  cases hdb : dateBounds invoice with
  | none => rw [hdb] at h5; simp at h5
  | some p =>
    obtain ⟨mn, mx⟩ := p
    rw [hdb] at h5
    injection h5 with h5
    subst h5
    rw [List.mem_flatMap] at hg
    obtain ⟨v, hv, hg⟩ := hg
    rw [List.mem_filterMap] at hg
    obtain ⟨dd, hdd, halarm⟩ := hg
    exact ⟨(alarm_quarterly_fields halarm).1, (alarm_quarterly_fields halarm).2.1⟩

theorem concat_gleans_ok {invoice : List Invoice} {line_item : List LineItem}
    {out : List (Nat × Glean)} (hout : concat_gleans invoice line_item = Except.ok out) :
    ∃ g3 g4 g5, large_month_increase_mtd invoice = Except.ok g3 ∧
      no_invoice_received_monthly invoice = Except.ok g4 ∧
      no_invoice_received_quaterly invoice = Except.ok g5 ∧
      out = (vendor_not_seen_in_a_while invoice ++ accrual_alert invoice line_item
              ++ g3 ++ g4 ++ g5).enum := by
  unfold concat_gleans at hout
  cases h3 : large_month_increase_mtd invoice with
  | error e => rw [h3] at hout; simp [Bind.bind, Except.bind] at hout
  | ok g3 =>
    cases h4 : no_invoice_received_monthly invoice with
    | error e =>
      rw [h3, h4] at hout; simp [Bind.bind, Except.bind] at hout
    | ok g4 =>
      cases h5 : no_invoice_received_quaterly invoice with
      | error e =>
        rw [h3, h4, h5] at hout; simp [Bind.bind, Except.bind] at hout
      | ok g5 =>
        rw [h3, h4, h5] at hout
        simp only [Bind.bind, Except.bind, pure, Except.pure, Except.ok.injEq] at hout
        exact ⟨g3, g4, g5, rfl, rfl, rfl, hout.symm⟩

/-- C7: scope discipline of the engine output. The invoice-scoped
detectors D1 and D2 always attach an invoice_id referencing an input
invoice and set glean_location = 1; the vendor-scoped detectors D3, D4
and D5 always set invoice_id to null and glean_location = 2; hence for
every record of the driver's output, invoice_id is non-null if and only
if glean_location = 1. -/
theorem c7_scope_discipline (invoice : List Invoice) (line_item : List LineItem) :
    (∀ g ∈ vendor_not_seen_in_a_while invoice,
        g.glean_location = 1 ∧ ∃ inv ∈ invoice, g.invoice_id = some inv.invoice_id) ∧
    (∀ g ∈ accrual_alert invoice line_item,
        g.glean_location = 1 ∧ ∃ inv ∈ invoice, g.invoice_id = some inv.invoice_id) ∧
    (∀ gl, large_month_increase_mtd invoice = Except.ok gl →
        ∀ g ∈ gl, g.glean_location = 2 ∧ g.invoice_id = none) ∧
    (∀ gl, no_invoice_received_monthly invoice = Except.ok gl →
        ∀ g ∈ gl, g.glean_location = 2 ∧ g.invoice_id = none) ∧
    (∀ gl, no_invoice_received_quaterly invoice = Except.ok gl →
        ∀ g ∈ gl, g.glean_location = 2 ∧ g.invoice_id = none) ∧
    (∀ out, concat_gleans invoice line_item = Except.ok out →
        ∀ p ∈ out, (p.2.invoice_id.isSome = true ↔ p.2.glean_location = 1)) := by
  refine ⟨fun g hg => d1_fields hg, fun g hg => d2_fields hg,
    fun gl h3 g hg => d3_fields h3 hg, fun gl h4 g hg => d4_fields h4 hg,
    fun gl h5 g hg => d5_fields h5 hg, ?_⟩
  intro out hout p hp
  obtain ⟨g3, g4, g5, h3, h4, h5, hcat⟩ := concat_gleans_ok hout
  subst hcat
  have hmem : p.2 ∈ vendor_not_seen_in_a_while invoice ++ accrual_alert invoice line_item
      ++ g3 ++ g4 ++ g5 := by
    have h1 : p.2 ∈ (vendor_not_seen_in_a_while invoice ++ accrual_alert invoice line_item
        ++ g3 ++ g4 ++ g5).enum.map Prod.snd := List.mem_map_of_mem Prod.snd hp
    rwa [List.enum_map_snd] at h1
  rw [List.mem_append] at hmem
  rcases hmem with hmem | hmem
  · rw [List.mem_append] at hmem
    rcases hmem with hmem | hmem
    · rw [List.mem_append] at hmem
      rcases hmem with hmem | hmem
      · rw [List.mem_append] at hmem
        rcases hmem with hmem | hmem
        · obtain ⟨hloc, inv, _, hid⟩ := d1_fields hmem
          simp [hloc, hid]
        · obtain ⟨hloc, inv, _, hid⟩ := d2_fields hmem
          simp [hloc, hid]
      · obtain ⟨hloc, hid⟩ := d3_fields h3 hmem
        simp [hloc, hid]
    · obtain ⟨hloc, hid⟩ := d4_fields h4 hmem
      simp [hloc, hid]
  · obtain ⟨hloc, hid⟩ := d5_fields h5 hmem
    simp [hloc, hid]

set_option maxRecDepth 8000 in
/-- Witness for C7 on the row the driver produces for a firing D2 input:
its invoice_id is non-null and its glean_location is 1. -/
theorem c7_scope_discipline_witness :
    ((⟨⟨2020, 1, 1⟩,
       "Line items from vendor V1 in this invoice cover future periods (through 2020-06-01)",
       2, 1, some "I1", "V1"⟩ : Glean).invoice_id.isSome = true ↔
     (⟨⟨2020, 1, 1⟩,
       "Line items from vendor V1 in this invoice cover future periods (through 2020-06-01)",
       2, 1, some "I1", "V1"⟩ : Glean).glean_location = 1) :=
  (c7_scope_discipline exInvC5 exLiC5).2.2.2.2.2
    [(0, ⟨⟨2020, 1, 1⟩,
       "Line items from vendor V1 in this invoice cover future periods (through 2020-06-01)",
       2, 1, some "I1", "V1"⟩)]
    (by with_unfolding_all rfl)
    (0, ⟨⟨2020, 1, 1⟩,
       "Line items from vendor V1 in this invoice cover future periods (through 2020-06-01)",
       2, 1, some "I1", "V1"⟩)
    (by decide)

theorem le_addMonth_monthStart {a : Date} (ha : ValidDate a) :
    a ≤ addMonth (monthStart a) := by
  obtain ⟨h1, h2, h3, h4⟩ := ha
  unfold addMonth monthStart
  by_cases hm : a.m = 12
  · rw [if_pos (by simpa using hm)]
    rw [Date.le_def]
    dsimp only
    omega
  · rw [if_neg (by simpa using hm)]
    rw [Date.le_def]
    dsimp only
    omega

theorem addMonth_monthStart_facts {a : Date} (h1 : 1 ≤ a.m) (h2 : a.m ≤ 12) :
    1 ≤ (addMonth (monthStart a)).m ∧ (addMonth (monthStart a)).m ≤ 12 ∧
      (addMonth (monthStart a)).d = 1 := by
  unfold addMonth monthStart
  by_cases hm : a.m = 12
  · rw [if_pos (by simpa using hm)]
    dsimp only
    omega
  · rw [if_neg (by simpa using hm)]
    dsimp only
    omega

theorem d1_date {invoice : List Invoice} {g : Glean}
    (h : g ∈ vendor_not_seen_in_a_while invoice) :
    ∃ inv ∈ invoice, inv.invoice_date = some g.glean_date := by
  unfold vendor_not_seen_in_a_while at h
  rw [List.mem_flatMap] at h
  obtain ⟨v, hv, hg⟩ := h
  obtain ⟨inv, hinv, dte, gap, hd, hgg⟩ := d1Scan_mem hg
  have hinv2 : inv ∈ invoice := by
    rw [sortInvoicesByDate, mem_isort] at hinv
    exact (List.mem_filter.mp hinv).1
  subst hgg
  exact ⟨inv, hinv2, hd⟩

theorem d2_date {invoice : List Invoice} {line_item : List LineItem} {g : Glean}
    (h : g ∈ accrual_alert invoice line_item) :
    ∃ inv ∈ invoice, inv.invoice_date = some g.glean_date := by
  unfold accrual_alert at h
  rw [List.mem_filterMap] at h
  obtain ⟨inv, hinv, hf⟩ := h
  cases hl : latest_period_end_date invoice line_item inv.invoice_id with
  | none =>
    rw [hl] at hf
    cases inv.invoice_date <;> simp at hf
  | some lpe =>
    rw [hl] at hf
    cases hdte : inv.invoice_date with
    | none => rw [hdte] at hf; simp at hf
    | some idt =>
      rw [hdte] at hf
      have hf2 : (if 90 < toOrdinal lpe - toOrdinal idt then
          some { glean_date := idt, glean_text := d2_text inv.canonical_vendor_id lpe,
                 glean_type := 2, glean_location := 1,
                 invoice_id := some inv.invoice_id,
                 canonical_vendor_id := inv.canonical_vendor_id : Glean }
          else none) = some g := hf
      by_cases hc : 90 < toOrdinal lpe - toOrdinal idt
      · rw [if_pos hc] at hf2
        injection hf2 with hf3
        subst hf3
        exact ⟨inv, hinv, hdte⟩
      · rw [if_neg hc] at hf2
        simp at hf2

theorem d3_date {invoice : List Invoice} {mn mx : Date} {gl : List Glean} {g : Glean}
    (hdb : dateBounds invoice = some (mn, mx))
    (h3 : large_month_increase_mtd invoice = Except.ok gl) (hg : g ∈ gl) :
    g.glean_date ∈ grid_months mn mx := by
  unfold large_month_increase_mtd at h3
  rw [hdb] at h3
  injection h3 with h3
  subst h3
  rw [List.mem_flatMap] at hg
  obtain ⟨v, hv, hg⟩ := hg
  rw [List.mem_filterMap] at hg
  obtain ⟨i, hi, hrow⟩ := hg
  rw [List.mem_range] at hi
  simp only [lmi_row] at hrow
  rw [Option.map_eq_some'] at hrow
  obtain ⟨t, ht, rfl⟩ := hrow
  show (grid_months mn mx).getD i epochDate ∈ grid_months mn mx
  rw [List.getD_eq_getElem _ _ hi]
  exact List.getElem_mem hi

theorem d4_date {invoice : List Invoice} {mn mx : Date} {gl : List Glean} {g : Glean}
    (hdb : dateBounds invoice = some (mn, mx))
    (h4 : no_invoice_received_monthly invoice = Except.ok gl) (hg : g ∈ gl) :
    g.glean_date ∈ dayRange (monthStart mn) (addMonth (monthStart mx)) := by
  unfold no_invoice_received_monthly at h4
  rw [hdb] at h4
  injection h4 with h4
  subst h4
  rw [List.mem_flatMap] at hg
  obtain ⟨v, hv, hg⟩ := hg
  rw [List.mem_filterMap] at hg
  obtain ⟨dd, hdd, halarm⟩ := hg
  rw [(alarm_monthly_fields halarm).2.2]
  exact hdd

theorem d5_date {invoice : List Invoice} {mn mx : Date} {gl : List Glean} {g : Glean}
    (hdb : dateBounds invoice = some (mn, mx))
    (h5 : no_invoice_received_quaterly invoice = Except.ok gl) (hg : g ∈ gl) :
    g.glean_date ∈ dayRange (monthStart mn) (addMonth (monthStart mx)) := by
  unfold no_invoice_received_quaterly at h5
  rw [hdb] at h5
  injection h5 with h5
  subst h5
  rw [List.mem_flatMap] at hg
  obtain ⟨v, hv, hg⟩ := hg
  rw [List.mem_filterMap] at hg
  obtain ⟨dd, hdd, halarm⟩ := hg
  rw [(alarm_quarterly_fields halarm).2.2]
  exact hdd

/-- C9: when at least one invoice_date is non-null (so the bounds of the
invoice dates exist) and all invoice dates are valid calendar dates,
every glean the driver outputs has a glean_date inside the closed
interval from month_start(min invoice_date) to month_start(max
invoice_date) plus one month. -/
theorem c9_glean_dates (invoice : List Invoice) (line_item : List LineItem)
    (mn mx : Date) (hdb : dateBounds invoice = some (mn, mx))
    (hval : ∀ i ∈ invoice, ∀ dd ∈ i.invoice_date.toList, ValidDate dd)
    (out : List (Nat × Glean)) (hout : concat_gleans invoice line_item = Except.ok out)
    (p : Nat × Glean) (hp : p ∈ out) :
    monthStart mn ≤ p.2.glean_date ∧ p.2.glean_date ≤ addMonth (monthStart mx) := by
  obtain ⟨g3, g4, g5, h3, h4, h5, hcat⟩ := concat_gleans_ok hout
  subst hcat
  obtain ⟨⟨hm1, hm2⟩, ⟨hx1, hx2⟩, hle, hvmn, hvmx⟩ := bounds_month_facts hdb hval
  have hinvdate : ∀ d : Date, (∃ inv ∈ invoice, inv.invoice_date = some d) →
      monthStart mn ≤ d ∧ d ≤ addMonth (monthStart mx) := by
    rintro d ⟨inv, hinv, hdte⟩
    have hdmem : d ∈ invoice.filterMap (fun i => i.invoice_date) :=
      List.mem_filterMap.mpr ⟨inv, hinv, hdte⟩
    obtain ⟨hmn, hmx⟩ := dateBounds_bounds hdb d hdmem
    exact ⟨Date.le_trans (monthStart_le_self hvmn.2.2.1) hmn,
           Date.le_trans hmx (le_addMonth_monthStart hvmx)⟩
  have hmem : p.2 ∈ vendor_not_seen_in_a_while invoice ++ accrual_alert invoice line_item
      ++ g3 ++ g4 ++ g5 := by
    have h1 : p.2 ∈ (vendor_not_seen_in_a_while invoice ++ accrual_alert invoice line_item
        ++ g3 ++ g4 ++ g5).enum.map Prod.snd := List.mem_map_of_mem Prod.snd hp
    rwa [List.enum_map_snd] at h1
  have hend := addMonth_monthStart_facts hx1 hx2
  rw [List.mem_append] at hmem
  rcases hmem with hmem | hmem
  · rw [List.mem_append] at hmem
    rcases hmem with hmem | hmem
    · rw [List.mem_append] at hmem
      rcases hmem with hmem | hmem
      · rw [List.mem_append] at hmem
        rcases hmem with hmem | hmem
        · exact hinvdate _ (d1_date hmem)
        · exact hinvdate _ (d2_date hmem)
      · have hgrid := d3_date hdb h3 hmem
        exact mem_monthRange hm1 hm2 hend.1 hend.2.1 hend.2.2.symm hgrid
    · exact mem_dayRange (d4_date hdb h4 hmem)
  · exact mem_dayRange (d5_date hdb h5 hmem)

set_option maxRecDepth 8000 in
/-- Witness for C9 on the single row the driver outputs for a concrete
input whose dates span January 2020. -/
theorem c9_glean_dates_witness :
    monthStart ⟨2020, 1, 1⟩ ≤
      (⟨⟨2020, 1, 1⟩,
        "Line items from vendor V1 in this invoice cover future periods (through 2020-06-01)",
        2, 1, some "I1", "V1"⟩ : Glean).glean_date ∧
    (⟨⟨2020, 1, 1⟩,
      "Line items from vendor V1 in this invoice cover future periods (through 2020-06-01)",
      2, 1, some "I1", "V1"⟩ : Glean).glean_date ≤ addMonth (monthStart ⟨2020, 1, 1⟩) :=
  c9_glean_dates exInvC5 exLiC5 ⟨2020, 1, 1⟩ ⟨2020, 1, 1⟩ (by with_unfolding_all rfl)
    (by decide)
    [(0, ⟨⟨2020, 1, 1⟩,
       "Line items from vendor V1 in this invoice cover future periods (through 2020-06-01)",
       2, 1, some "I1", "V1"⟩)]
    (by with_unfolding_all rfl)
    (0, ⟨⟨2020, 1, 1⟩,
       "Line items from vendor V1 in this invoice cover future periods (through 2020-06-01)",
       2, 1, some "I1", "V1"⟩)
    (by decide)
